import Mathlib

/-!
# Cornice: avalanche evaluation and ranking

A shallow embedding of `src/main.cpp` (the avalanche evaluator `avalanche_quality`, the
comparator `ranking_function` and the ranking step of `main`) together with theorems about it.

Conventions of the embedding.

* `uint64_t` values are natural numbers; every operation that can leave the 64-bit range is
  followed by an explicit reduction modulo `2^64`.
* `int` values are integers; every `++` and `+=` on an `int` is followed by `wrap_int`, the
  two's-complement reduction to the 32-bit signed range.
* `double` values are elements of a linearly ordered field (the rationals when a definition is
  evaluated, the reals where a square root is taken); rounding is not modelled.
* The random source is a stream `rng : Nat → Nat` of raw outputs; trial `i` reads `rng (2 * i)`
  for the draw of the distribution and `rng (2 * i + 1)` for the call `gen()`.
* `std::map<int, int>` is an association list kept in strictly ascending key order.
* `std::sort` is a library routine: theorems about every run take it as a parameter with the
  contract of the C++ standard (`StdSortContract`); a concrete run uses `std_sort`, the routine
  as libstdc++ implements it.
* A `std::stringstream` is the string written so far.
* The command line is the list `argv[1], ..., argv[argc - 1]`; `atoi` and `strtoull` follow the
  C library.
* A loop under `omp parallel for` is a step machine: a schedule names, step by step, the
  iteration that moves; the block under `omp critical` is entered only while no iteration is
  inside it, and the code after the loop runs once every iteration has finished.
-/

namespace Cornice

/-! ## Machine arithmetic -/

/-- The number of values of a `uint64_t`. -/
def UINT64_SIZE : Nat := 2 ^ 64

/-- Two's-complement reduction of an integer to the range of a 32-bit signed `int`. -/
def wrap_int (x : Int) : Int := (x + 2 ^ 31) % 2 ^ 32 - 2 ^ 31

/-! ## The sampler (lines 27-29 and 37-38 of `main.cpp`) -/

/-- Lower bound handed to `std::uniform_int_distribution<uint64_t>`: `1ULL << 63`. -/
def dist_a : Nat := (1 <<< 63) % UINT64_SIZE

/-- Upper bound handed to the distribution: `((1ULL << 63) - 1) + (1ULL << 63)`. -/
def dist_b : Nat := (((1 <<< 63) % UINT64_SIZE - 1) + (1 <<< 63) % UINT64_SIZE) % UINT64_SIZE

/-- The library distribution `std::uniform_int_distribution<uint64_t>(a, b)` applied to one draw
`u` of the random source: a value of the closed interval `[a, b]`, every value of the interval
being the image of some draw. -/
def uniform_int_distribution (a b u : Nat) : Nat := a + u % (b - a + 1)

/-- One raw output of `std::mt19937_64`: a 64-bit value. -/
def gen_output (r : Nat) : Nat := r % UINT64_SIZE

/-- Line 37: `uint64_t state = dist(gen);`. -/
def sample_state (u : Nat) : Nat := uniform_int_distribution dist_a dist_b u

/-- The bit index of line 38: `gen() % 64`. -/
def bit_index (r : Nat) : Nat := gen_output r % 64

/-- Line 38: `uint64_t modified_state = state ^ (1ULL << (gen() % 64));`. -/
def perturb (state r : Nat) : Nat := state ^^^ ((1 <<< bit_index r) % UINT64_SIZE)

/-! ## The mixing map (lines 40-41) -/

/-- Lines 40-41: `(x * G) % P` on `uint64_t` operands. The product is a `uint64_t`, so it is
reduced modulo `2^64` before the reduction modulo `P`. (`P = 0` is a division by zero in the
source: see `avalanche_quality_with`.) -/
def mix (P G x : Nat) : Nat := ((x * G) % UINT64_SIZE) % P

/-! ## Hamming distance -/

/-- Number of set bits among the 64 low bits of `x`. -/
def popcount (x : Nat) : Nat := ((List.range 64).filter (fun i => x.testBit i)).length

/-- Modelled from the spec: `math_utils::hamming_distance` (declared in `math_utils.h`, which is
not among the sources) is the population count of `a XOR b`, an integer in `[0, 64]`. -/
def hamming_distance (a b : Nat) : Int := (popcount (a ^^^ b) : Int)

/-! ## The histogram (`std::map<int, int>`) -/

/-- The histogram type: key/count pairs in strictly ascending key order. -/
abbrev Histogram := List (Int × Int)

/-- Line 44: `histogram[k]++`. An absent key is first inserted with the count 0. -/
def histogram_incr : Histogram → Int → Histogram
  | [], k => [(k, wrap_int (0 + 1))]
  | (k', c) :: rest, k =>
    if k < k' then (k, wrap_int (0 + 1)) :: (k', c) :: rest
    else if k = k' then (k', wrap_int (c + 1)) :: rest
    else (k', c) :: histogram_incr rest k

/-- The occurrence count stored under key `k`, 0 when the key is absent. -/
def histogram_count : Histogram → Int → Int
  | [], _ => 0
  | (k', c) :: rest, k => if k = k' then c else histogram_count rest k

/-- Well-formedness of a histogram built by the evaluator: keys strictly ascending, every key in
`[0, 64]`, every stored count positive. -/
def HistogramWF (h : Histogram) : Prop :=
  h.Pairwise (fun a b => a.1 < b.1) ∧ ∀ e ∈ h, (0 ≤ e.1 ∧ e.1 ≤ 64) ∧ 0 < e.2

/-- Sum of all occurrence counts. -/
def histogram_total (h : Histogram) : Int := (h.map (fun e => e.2)).sum

/-- The histogram-weighted sum: the sum over the keys `k` of `k * histogram[k]`. -/
def histogram_weighted (h : Histogram) : Int := (h.map (fun e => e.1 * e.2)).sum

/-! ## The evaluator (lines 26-64) -/

/-- The local variables of `avalanche_quality` that the loop updates. -/
structure LoopState where
  histogram : Histogram
  sumBitChanges : Int
  zero_bits_count : Int
deriving DecidableEq, Repr

/-- Lines 32-34: the state before the first iteration. -/
def LoopState.init : LoopState := ⟨[], 0, 0⟩

/-- Lines 37-43: the value `bitsChanged` of the trial with index `i` (counted from 0). -/
def bitsChanged (P G : Nat) (rng : Nat → Nat) (i : Nat) : Int :=
  let state := sample_state (rng (2 * i))
  let modified_state := perturb state (rng (2 * i + 1))
  let state_prime := mix P G state
  let modified_state_prime := mix P G modified_state
  hamming_distance state_prime modified_state_prime

/-- Lines 44-50: the updates of one iteration, given its `bitsChanged`. -/
def LoopState.step (st : LoopState) (bits : Int) : LoopState :=
  { histogram := histogram_incr st.histogram bits
    zero_bits_count := if bits = 0 then wrap_int (st.zero_bits_count + 1) else st.zero_bits_count
    sumBitChanges := wrap_int (st.sumBitChanges + bits) }

/-- Lines 36-51: the loop, run for `iterations` trials. -/
def avalanche_loop (P G : Nat) (rng : Nat → Nat) : Nat → LoopState
  | 0 => LoopState.init
  | i + 1 => (avalanche_loop P G rng i).step (bitsChanged P G rng i)

/-- The record returned by the evaluator. -/
structure AvalancheStatistics (α : Type) where
  P : Nat
  G : Nat
  zero_bits_percentage : α
  mean : α
  stddev : α
  histogram : Histogram

/-- Lines 56-60: the sum of `diff * diff * entry.second` over the histogram entries. -/
def sumOfSquaredDifferences {α : Type} [LinearOrderedField α] (average : α) (h : Histogram) : α :=
  h.foldl (fun acc entry => acc + ((entry.1 : α) - average) * ((entry.1 : α) - average) * (entry.2 : α)) 0

/-- Lines 53-63: the summary statistics computed from the final loop state; `sqrt` stands for
`std::sqrt`. -/
def avalanche_statistics {α : Type} [LinearOrderedField α] (sqrt : α → α) (iterations : Nat)
    (P G : Nat) (st : LoopState) : AvalancheStatistics α :=
  let average : α := (st.sumBitChanges : α) / (iterations : α)
  let zero_bits_percentage : α := (st.zero_bits_count : α) / (iterations : α) * 100
  let stdev : α := sqrt (sumOfSquaredDifferences average st.histogram / (iterations : α))
  { P := P, G := G, zero_bits_percentage := zero_bits_percentage, mean := average,
    stddev := stdev, histogram := st.histogram }

/-- Lines 26-64 with the trial count as an argument. The result is `none` when the first
iteration divides by a zero modulus (`% P` with `P = 0`), which ends the process. -/
def avalanche_quality_with {α : Type} [LinearOrderedField α] (sqrt : α → α) (iterations : Nat)
    (P G : Nat) (rng : Nat → Nat) : Option (AvalancheStatistics α) :=
  if P = 0 ∧ 0 < iterations then none
  else some (avalanche_statistics sqrt iterations P G (avalanche_loop P G rng iterations))

/-- Line 31: `const int iterations = 10000000;`. -/
def iterations : Nat := 10000000

/-- The evaluator `avalanche_quality(P, G)` of the source. -/
def avalanche_quality {α : Type} [LinearOrderedField α] (sqrt : α → α) (P G : Nat)
    (rng : Nat → Nat) : Option (AvalancheStatistics α) :=
  avalanche_quality_with sqrt iterations P G rng

/-- The mean computed from the histogram alone: the weighted sum over the trial count. -/
def histogram_mean {α : Type} [LinearOrderedField α] (h : Histogram) (n : Nat) : α :=
  (histogram_weighted h : α) / (n : α)

/-! ## The ranker (lines 66-71 and the `std::sort` calls of `main`) -/

/-- The score of lines 68-69: `10 * |mean - 32| + 15 * stddev + 5 * zero_bits_percentage`. -/
def score {α : Type} [LinearOrderedField α] (a : AvalancheStatistics α) : α :=
  10 * |a.mean - 32| + 15 * a.stddev + 5 * a.zero_bits_percentage

/-- Lines 67-71: `ranking_function(a, b)` is `score_a < score_b`. -/
def ranking_function {α : Type} [LinearOrderedField α] (a b : AvalancheStatistics α) : Bool :=
  decide (score a < score b)

/-- The requirement of the C++ standard on a comparator passed to `std::sort`: it induces a
strict weak ordering. -/
structure StrictWeakOrdering {T : Type} (comp : T → T → Bool) : Prop where
  irrefl : ∀ a, comp a a = false
  trans : ∀ a b c, comp a b = true → comp b c = true → comp a c = true
  incomp_trans : ∀ a b c, comp a b = false → comp b a = false → comp b c = false →
    comp c b = false → comp a c = false ∧ comp c a = false

/-- The contract of the library function `std::sort`: for a comparator that is a strict weak
ordering the result is a rearrangement of the input in which no later element compares less
than an earlier one. The relative order of equivalent elements is left open. -/
def StdSortContract {T : Type} (sort : (T → T → Bool) → List T → List T) : Prop :=
  ∀ comp, StrictWeakOrdering comp → ∀ l,
    (sort comp l).Perm l ∧ (sort comp l).Pairwise (fun a b => comp b a = false)

/-- Lines 164 and 194: `std::sort(results.begin(), results.end(), ranking_function)`. -/
def rank_results {α : Type} [LinearOrderedField α]
    (sort : (AvalancheStatistics α → AvalancheStatistics α → Bool) →
      List (AvalancheStatistics α) → List (AvalancheStatistics α))
    (results : List (AvalancheStatistics α)) : List (AvalancheStatistics α) :=
  sort ranking_function results

/-- Insertion of `x` in front of the first element that `x` compares less than. -/
def insert_before {T : Type} (comp : T → T → Bool) (x : T) : List T → List T
  | [] => [x]
  | y :: ys => if comp x y then x :: y :: ys else y :: insert_before comp x ys

/-- A sorting function meeting `StdSortContract`: insertion sort, from the last element on. An
element is placed behind the elements equivalent to it, so equivalent elements come out in the
reverse of their input order. -/
def insertion_sort {T : Type} (comp : T → T → Bool) : List T → List T
  | [] => []
  | x :: xs => insert_before comp x (insertion_sort comp xs)

/-- An evaluation result over the rationals with the given `G`, mean, standard deviation and
zero-change percentage, for concrete batches. -/
def example_result (G : Nat) (mean stddev zero : ℚ) : AvalancheStatistics ℚ :=
  { P := 1000000007, G := G, zero_bits_percentage := zero, mean := mean, stddev := stddev,
    histogram := [] }

/-! ## The report renderer (lines 73-83) -/

/-- The manipulator `std::setw(w)` applied to the next output `s`: the output is padded on the
left with spaces to the width `w`, and never shortened. -/
def setw (w : Nat) (s : String) : String := String.mk (List.replicate (w - s.length) ' ') ++ s

/-- Line 78: `for (int i = 0; i < barLength; i++) ss << "#";`, with the number of passes. -/
def append_markers (ss : String) : Nat → String
  | 0 => ss
  | i + 1 => append_markers (ss ++ "#") i

/-- Line 77: `int barLength = entry.second / (iterations/500);`, with the truncating division
of `int`. -/
def barLength (count iterations : Int) : Int := Int.tdiv count (Int.tdiv iterations 500)

/-- Lines 76-80: the output of one histogram entry, appended to the stream `ss`. -/
def append_entry (iterations : Int) (ss : String) (entry : Int × Int) : String :=
  let ss := ss ++ setw 2 (toString entry.1) ++ " bits: "
  let ss := append_markers ss (barLength entry.2 iterations).toNat
  let ss := if barLength entry.2 iterations > 0 then ss ++ " " else ss
  ss ++ "(" ++ toString entry.2 ++ ")\n"

/-- Lines 73-83: `generate_histogram_string(histogram, iterations)`. The result is `none` when
the first entry divides by `iterations/500 = 0`, which ends the process. -/
def generate_histogram_string (histogram : Histogram) (iterations : Int) : Option String :=
  if Int.tdiv iterations 500 = 0 ∧ histogram ≠ [] then none
  else some (histogram.foldl (append_entry iterations) "")

/-- The line of the report for one key, in the words of the specification: the key right-aligned
to width 2, the text `" bits: "`, `count / (trial_count / 500)` markers (integer division), a
separating blank when there is a marker, and the raw count in parentheses. -/
def histogram_line (key : Int) (count trial_count : Nat) : String :=
  setw 2 (toString key) ++ " bits: " ++
    String.mk (List.replicate (count / (trial_count / 500)) '#') ++
    (if 0 < count / (trial_count / 500) then " " else "") ++
    "(" ++ toString count ++ ")\n"

/-- The report in the words of the specification: one line per entry of the histogram, in the
order of the entries (ascending keys). -/
def histogram_report : Histogram → Nat → String
  | [], _ => ""
  | entry :: rest, trial_count =>
    histogram_line entry.1 entry.2.toNat trial_count ++ histogram_report rest trial_count

/-! ## Argument parsing (lines 99-144) -/

/-- The C library predicate `isspace` in the C locale. -/
def isspace (c : Char) : Bool :=
  c = ' ' || c = '\t' || c = '\n' || c = '\x0b' || c = '\x0c' || c = '\r'

/-- The value of the leading run of decimal digits of `cs`, continuing the value `acc`; `none`
for the accumulator means that no digit has been read. -/
def leading_digits : List Char → Option Nat → Option Nat
  | [], acc => acc
  | c :: cs, acc =>
    if c.isDigit then leading_digits cs (some (acc.getD 0 * 10 + (c.toNat - '0'.toNat)))
    else acc

/-- The common front end of `atoi` and `strtoull`: white space is skipped, an optional sign is
read, then the leading digits. The result is the sign (`true` for `-`) and the magnitude, or
`none` when no digit follows. -/
def scan_number (s : String) : Option (Bool × Nat) :=
  match s.data.dropWhile isspace with
  | '-' :: cs => (leading_digits cs none).map (fun v => (true, v))
  | '+' :: cs => (leading_digits cs none).map (fun v => (false, v))
  | cs => (leading_digits cs none).map (fun v => (false, v))

/-- The C library function `atoi`, as `(int) strtol(s, nullptr, 10)`: 0 when no number can be
read, the value clamped to the range of a 64-bit `long` and then reduced to an `int`. -/
def atoi (s : String) : Int :=
  match scan_number s with
  | none => 0
  | some (true, v) => wrap_int (max (-(v : Int)) (-(2 ^ 63)))
  | some (false, v) => wrap_int (min (v : Int) (2 ^ 63 - 1))

/-- The C library function `strtoull(s, nullptr, 10)`: 0 when no number can be read,
`ULLONG_MAX` when the magnitude does not fit in 64 bits, and the magnitude negated modulo `2^64`
after a minus sign. -/
def strtoull (s : String) : Nat :=
  match scan_number s with
  | none => 0
  | some (neg, v) =>
    if UINT64_SIZE ≤ v then UINT64_SIZE - 1
    else if neg then (UINT64_SIZE - v) % UINT64_SIZE
    else v

/-- Lines 100-103: the variables set by the argument loop. -/
structure ArgState where
  num_samples : Int
  single_prime_mode : Bool
  prime_input : Nat
  p_samples : Int
deriving DecidableEq, Repr

/-- Lines 100-103: the defaults. -/
def ArgState.default : ArgState :=
  { num_samples := 10, single_prime_mode := false, prime_input := 0, p_samples := 1 }

/-- The outcome of the argument loop: a `return` with an exit code, or the final variables. -/
inductive ParseOutcome where
  | exit (code : Nat)
  | proceed (st : ArgState)
deriving DecidableEq, Repr

/-- The test `argv[i][0] != '-'` of line 136. -/
def not_dash (arg : String) : Bool := arg.data.head? != some '-'

/-- Lines 106-144: the loop over `argv[1], ..., argv[argc - 1]`, started in the state `st`. An
option that takes a value consumes the following argument (`i++`). -/
def parse_args : List String → ArgState → ParseOutcome
  | [], st => ParseOutcome.proceed st
  | arg :: rest, st =>
    if arg = "-h" then ParseOutcome.exit 0
    else if arg = "-p" then
      match rest with
      | [] => ParseOutcome.exit 1
      | value :: rest' =>
        if strtoull value = 0 then ParseOutcome.exit 1
        else parse_args rest'
          { st with prime_input := strtoull value, single_prime_mode := true }
    else if arg = "--p-samples" then
      match rest with
      | [] => ParseOutcome.exit 1
      | value :: rest' =>
        if atoi value ≤ 0 then ParseOutcome.exit 1
        else parse_args rest' { st with p_samples := atoi value }
    else if not_dash arg && !st.single_prime_mode then
      if atoi arg ≤ 0 then ParseOutcome.exit 1
      else parse_args rest { st with num_samples := atoi arg }
    else parse_args rest st

/-! ## The parallel loops of `main` (lines 150-161 and 180-191) -/

/-- Where one iteration of a `#pragma omp parallel for` loop stands: its evaluation is not yet
completed (`pending`), its result is computed and it stands in front of the
`#pragma omp critical` block (`waiting`), it is inside the block and has not yet appended
(`inside`), or it has appended and left the block (`finished`). -/
inductive Phase where
  | pending
  | waiting
  | inside
  | finished
deriving DecidableEq, Repr

/-- The state of a parallel loop: the phase of every iteration and the shared vector. -/
structure RegionState (X : Type) where
  phase : Nat → Phase
  results : List X

/-- The state when the parallel loop is entered: nothing evaluated, the vector empty. -/
def RegionState.init (X : Type) : RegionState X := { phase := fun _ => Phase.pending, results := [] }

/-- No iteration below `n` is inside the critical block. -/
def critical_free {X : Type} (n : Nat) (s : RegionState X) : Bool :=
  (List.range n).all (fun j => s.phase j != Phase.inside)

/-- Every iteration below `n` has finished: the condition of the barrier that ends the loop. -/
def all_finished {X : Type} (n : Nat) (s : RegionState X) : Bool :=
  (List.range n).all (fun j => s.phase j == Phase.finished)

/-- One step of iteration `i` of a parallel loop of `n` iterations whose evaluation is `task`.
A pending iteration evaluates (the process ends when the evaluation does); a waiting iteration
enters the critical block, which it can only do while no iteration is inside; an iteration
inside the block appends its result to the vector and leaves. `none` stands for a step that
cannot be taken. -/
def region_step {X : Type} (n : Nat) (task : Nat → Option X) (s : RegionState X) (i : Nat) :
    Option (RegionState X) :=
  if i < n then
    match s.phase i with
    | Phase.pending =>
      match task i with
      | none => none
      | some _ => some { s with phase := Function.update s.phase i Phase.waiting }
    | Phase.waiting =>
      if critical_free n s then some { s with phase := Function.update s.phase i Phase.inside }
      else none
    | Phase.inside =>
      match task i with
      | none => none
      | some stat =>
        some { phase := Function.update s.phase i Phase.finished, results := s.results ++ [stat] }
    | Phase.finished => none
  else none

/-- What holds in every state of a parallel loop: at most one iteration is inside the critical
block, and the vector holds the results of the finished iterations, each once. -/
def RegionInv {X : Type} (n : Nat) (task : Nat → Option X) (s : RegionState X) : Prop :=
  (∀ i j, i < n → j < n → s.phase i = Phase.inside → s.phase j = Phase.inside → i = j) ∧
    ∃ done : List Nat, s.results.map some = done.map task ∧
      ∀ i, done.count i = if i < n ∧ s.phase i = Phase.finished then 1 else 0

/-- The steps of a schedule taken one after the other: the schedule names, step by step, the
iteration that moves. -/
def region_run {X : Type} (n : Nat) (task : Nat → Option X) :
    List Nat → RegionState X → Option (RegionState X)
  | [], s => some s
  | i :: schedule, s =>
    match region_step n task s i with
    | none => none
    | some s' => region_run n task schedule s'

/-- A parallel loop with its closing barrier: the vector handed to the code after the loop,
once every iteration has finished under the given schedule. -/
def parallel_for {X : Type} (n : Nat) (task : Nat → Option X) (schedule : List Nat) :
    Option (List X) :=
  match region_run n task schedule (RegionState.init X) with
  | none => none
  | some s => if all_finished n s then some s.results else none

/-- The schedule in which the iterations run one after the other, each through its three
steps. -/
def sequential_schedule (n : Nat) : List Nat := (List.range n).flatMap (fun i => [i, i, i])

/-! ## The orchestrator (lines 146-223) -/

/-- The functions of `math_utils.h`, which is not among the sources, that `main` calls. They
draw on their own randomness; the first argument numbers the iteration that calls. -/
structure MathUtils where
  random_large_prime : Nat → Nat
  factorize_source : Nat → Nat → List Nat
  find_big_generator : Nat → List Nat → Nat → Nat

/-- Lines 152-155: the evaluation of iteration `i` in fixed-prime mode. -/
def fixed_prime_task {α : Type} [LinearOrderedField α] (sqrt : α → α) (mu : MathUtils)
    (rngs : Nat → Nat → Nat) (prime_input : Nat) (i : Nat) : Option (AvalancheStatistics α) :=
  let P := prime_input
  let factors := mu.factorize_source i P
  let G := mu.find_big_generator i factors P
  avalanche_quality sqrt P G (rngs i)

/-- Lines 182-185: the evaluation of iteration `i` in exploration mode. -/
def exploration_task {α : Type} [LinearOrderedField α] (sqrt : α → α) (mu : MathUtils)
    (rngs : Nat → Nat → Nat) (i : Nat) : Option (AvalancheStatistics α) :=
  let P := mu.random_large_prime i
  let factors := mu.factorize_source i P
  let G := mu.find_big_generator i factors P
  avalanche_quality sqrt P G (rngs i)

/-- How `main` ends: with a `return` from the argument loop, or after ranking the batch of one
of the two modes (exit code 0). -/
inductive MainOutcome (α : Type) where
  | exited (code : Nat)
  | fixed_prime (ranked : List (AvalancheStatistics α))
  | exploration (ranked : List (AvalancheStatistics α))

/-- The exit code of the process. -/
def MainOutcome.exit_code {α : Type} : MainOutcome α → Nat
  | MainOutcome.exited code => code
  | MainOutcome.fixed_prime _ => 0
  | MainOutcome.exploration _ => 0

/-- The number of evaluations whose results were collected. -/
def MainOutcome.evaluations {α : Type} : MainOutcome α → Nat
  | MainOutcome.exited _ => 0
  | MainOutcome.fixed_prime ranked => ranked.length
  | MainOutcome.exploration ranked => ranked.length

/-- Lines 99-223 up to the ranked batch: the argument loop, then the parallel loop of the mode
under the given schedule, then `std::sort`. Printing and the output file are left out. The
result is `none` when the schedule is not a complete run of the parallel loop or an evaluation
ends the process. -/
def main {α : Type} [LinearOrderedField α] (sqrt : α → α)
    (sort : (AvalancheStatistics α → AvalancheStatistics α → Bool) →
      List (AvalancheStatistics α) → List (AvalancheStatistics α))
    (mu : MathUtils) (rngs : Nat → Nat → Nat) (schedule : List Nat) (args : List String) :
    Option (MainOutcome α) :=
  match parse_args args ArgState.default with
  | ParseOutcome.exit code => some (MainOutcome.exited code)
  | ParseOutcome.proceed st =>
    if st.single_prime_mode then
      (parallel_for st.p_samples.toNat (fixed_prime_task sqrt mu rngs st.prime_input)
        schedule).map (fun p_results => MainOutcome.fixed_prime (rank_results sort p_results))
    else
      (parallel_for st.num_samples.toNat (exploration_task sqrt mu rngs) schedule).map
        (fun results => MainOutcome.exploration (rank_results sort results))

/-- Collaborators for concrete runs: every prime is 1000000007, no factor is reported, and
iteration `i` is given the generator `5 + i`. -/
def example_math_utils : MathUtils :=
  { random_large_prime := fun _ => 1000000007
    factorize_source := fun _ _ => []
    find_big_generator := fun i _ _ => 5 + i }

/-- Random streams for concrete runs: iteration `i` reads `7919 * j + i` as its raw output
number `j`. -/
def example_streams (i j : Nat) : Nat := 7919 * j + i

/-- Arguments for a concrete run in fixed-prime mode: `-p 1000000007 --p-samples 5`. -/
def example_fixed_args : List String := ["-p", "1000000007", "--p-samples", "5"]

/-- The variables that the argument loop sets for `example_fixed_args`. -/
def example_fixed_state : ArgState :=
  { num_samples := 10, single_prime_mode := true, prime_input := 1000000007, p_samples := 5 }

/-! ## The evaluator in exact integer arithmetic -/

/-- The update `histogram[k]++` without the reduction to 32 bits. -/
def histogram_incr_exact : Histogram → Int → Histogram
  | [], k => [(k, 0 + 1)]
  | (k', c) :: rest, k =>
    if k < k' then (k, 0 + 1) :: (k', c) :: rest
    else if k = k' then (k', c + 1) :: rest
    else (k', c) :: histogram_incr_exact rest k

/-- The updates of one iteration without the reduction to 32 bits. -/
def LoopState.step_exact (st : LoopState) (bits : Int) : LoopState :=
  { histogram := histogram_incr_exact st.histogram bits
    zero_bits_count := if bits = 0 then st.zero_bits_count + 1 else st.zero_bits_count
    sumBitChanges := st.sumBitChanges + bits }

/-- The loop of the evaluator without the reduction to 32 bits. -/
def avalanche_loop_exact (P G : Nat) (rng : Nat → Nat) : Nat → LoopState
  | 0 => LoopState.init
  | i + 1 => (avalanche_loop_exact P G rng i).step_exact (bitsChanged P G rng i)

/-! ## The library routine `std::sort` as implemented in libstdc++

The routines of `bits/stl_algo.h` and `bits/stl_heap.h` behind `std::sort(first, last, comp)`,
on a list that stands for the vector, with positions for the iterators. Loops carry a number of
passes that their bounds never exceed. -/

/-- The comparison `comp(i, j)` of the elements at two positions. -/
def comp_iter {T : Type} (comp : T → T → Bool) (v : List T) (i j : Nat) : Bool :=
  match v[i]?, v[j]? with
  | some x, some y => comp x y
  | _, _ => false

/-- The exchange `std::iter_swap(i, j)`. -/
def iter_swap {T : Type} (v : List T) (i j : Nat) : List T :=
  match v[i]?, v[j]? with
  | some x, some y => (v.set i y).set j x
  | _, _ => v

/-- The assignment `*i = *j`. -/
def assign_from {T : Type} (v : List T) (i j : Nat) : List T :=
  match v[j]? with
  | some x => v.set i x
  | none => v

/-- The routine `__move_median_to_first(result, a, b, c, comp)`. -/
def move_median_to_first {T : Type} (comp : T → T → Bool) (v : List T) (result a b c : Nat) :
    List T :=
  if comp_iter comp v a b then
    if comp_iter comp v b c then iter_swap v result b
    else if comp_iter comp v a c then iter_swap v result c
    else iter_swap v result a
  else if comp_iter comp v a c then iter_swap v result a
  else if comp_iter comp v b c then iter_swap v result c
  else iter_swap v result b

/-- The loop `while (comp(first, pivot)) ++first;` of `__unguarded_partition`. -/
def partition_scan_up {T : Type} (comp : T → T → Bool) (v : List T) (pivot : Nat) :
    Nat → Nat → Nat
  | 0, first => first
  | passes + 1, first =>
    if comp_iter comp v first pivot then partition_scan_up comp v pivot passes (first + 1)
    else first

/-- The loop `while (comp(pivot, last)) --last;` of `__unguarded_partition`. -/
def partition_scan_down {T : Type} (comp : T → T → Bool) (v : List T) (pivot : Nat) :
    Nat → Nat → Nat
  | 0, last => last
  | passes + 1, last =>
    if comp_iter comp v pivot last then partition_scan_down comp v pivot passes (last - 1)
    else last

/-- The routine `__unguarded_partition(first, last, pivot, comp)`: the vector after the
exchanges and the position returned. -/
def unguarded_partition {T : Type} (comp : T → T → Bool) (pivot : Nat) :
    Nat → List T → Nat → Nat → List T × Nat
  | 0, v, first, _ => (v, first)
  | passes + 1, v, first, last =>
    let first' := partition_scan_up comp v pivot v.length first
    let last' := partition_scan_down comp v pivot v.length (last - 1)
    if first' < last' then
      unguarded_partition comp pivot passes (iter_swap v first' last') (first' + 1) last'
    else (v, first')

/-- The routine `__unguarded_partition_pivot(first, last, comp)`. -/
def unguarded_partition_pivot {T : Type} (comp : T → T → Bool) (v : List T)
    (first last : Nat) : List T × Nat :=
  let mid := first + (last - first) / 2
  let v' := move_median_to_first comp v first (first + 1) mid (last - 1)
  unguarded_partition comp first (v'.length + 1) v' (first + 1) last

/-- The loop of `__push_heap(first, holeIndex, topIndex, value, comp)`. -/
def push_heap {T : Type} (comp : T → T → Bool) (first topIndex : Nat) (value : T) :
    Nat → List T → Nat → List T
  | 0, v, holeIndex => v.set (first + holeIndex) value
  | passes + 1, v, holeIndex =>
    match v[first + (holeIndex - 1) / 2]? with
    | some parent =>
      if topIndex < holeIndex && comp parent value then
        push_heap comp first topIndex value passes (v.set (first + holeIndex) parent)
          ((holeIndex - 1) / 2)
      else v.set (first + holeIndex) value
    | none => v.set (first + holeIndex) value

/-- The first loop of `__adjust_heap`: the vector, the hole and the second child after it. -/
def adjust_heap_loop {T : Type} (comp : T → T → Bool) (first len : Nat) :
    Nat → List T → Nat → Nat → List T × Nat × Nat
  | 0, v, holeIndex, secondChild => (v, holeIndex, secondChild)
  | passes + 1, v, holeIndex, secondChild =>
    if secondChild < (len - 1) / 2 then
      let child := 2 * (secondChild + 1)
      let child' := if comp_iter comp v (first + child) (first + (child - 1)) then child - 1
        else child
      adjust_heap_loop comp first len passes (assign_from v (first + holeIndex) (first + child'))
        child' child'
    else (v, holeIndex, secondChild)

/-- The routine `__adjust_heap(first, holeIndex, len, value, comp)`. -/
def adjust_heap {T : Type} (comp : T → T → Bool) (v : List T) (first holeIndex len : Nat)
    (value : T) : List T :=
  match adjust_heap_loop comp first len len v holeIndex holeIndex with
  | (v', hole, secondChild) =>
    if len % 2 = 0 ∧ secondChild = (len - 2) / 2 then
      push_heap comp first holeIndex value len
        (assign_from v' (first + hole) (first + (2 * (secondChild + 1) - 1)))
        (2 * (secondChild + 1) - 1)
    else push_heap comp first holeIndex value len v' hole

/-- The routine `__pop_heap(first, last, result, comp)`. -/
def pop_heap {T : Type} (comp : T → T → Bool) (v : List T) (first last result : Nat) : List T :=
  match v[result]? with
  | some value => adjust_heap comp (assign_from v result first) first 0 (last - first) value
  | none => v

/-- The loop of `__make_heap`, from the position `parent` down to 0. -/
def make_heap_loop {T : Type} (comp : T → T → Bool) (first len : Nat) : List T → Nat → List T
  | v, 0 =>
    match v[first]? with
    | some value => adjust_heap comp v first 0 len value
    | none => v
  | v, parent + 1 =>
    match v[first + (parent + 1)]? with
    | some value => make_heap_loop comp first len (adjust_heap comp v first (parent + 1) len value)
        parent
    | none => v

/-- The routine `__make_heap(first, last, comp)`. -/
def make_heap {T : Type} (comp : T → T → Bool) (v : List T) (first last : Nat) : List T :=
  if last - first < 2 then v else make_heap_loop comp first (last - first) v ((last - first - 2) / 2)

/-- The routine `__sort_heap(first, last, comp)`, with `length = last - first`. -/
def sort_heap {T : Type} (comp : T → T → Bool) (first : Nat) : Nat → List T → List T
  | 0, v => v
  | 1, v => v
  | length + 2, v =>
    sort_heap comp first (length + 1)
      (pop_heap comp v first (first + (length + 1)) (first + (length + 1)))

/-- The loop of `__heap_select` over the positions from `i` on. -/
def heap_select_loop {T : Type} (comp : T → T → Bool) (first middle : Nat) :
    Nat → List T → Nat → List T
  | 0, v, _ => v
  | passes + 1, v, i =>
    heap_select_loop comp first middle passes
      (if comp_iter comp v i first then pop_heap comp v first middle i else v) (i + 1)

/-- The routine `__heap_select(first, middle, last, comp)`. -/
def heap_select {T : Type} (comp : T → T → Bool) (v : List T) (first middle last : Nat) :
    List T :=
  heap_select_loop comp first middle (last - middle) (make_heap comp v first middle) middle

/-- The routine `std::__partial_sort(first, middle, last, comp)`: heap select, then heap sort. -/
def heap_sort_range {T : Type} (comp : T → T → Bool) (v : List T) (first middle last : Nat) :
    List T :=
  sort_heap comp first (middle - first) (heap_select comp v first middle last)

/-- The loop of `__unguarded_linear_insert(last, comp)` for the value `val` taken from the
position `last`. -/
def linear_insert_loop {T : Type} (comp : T → T → Bool) (val : T) : List T → Nat → List T
  | v, 0 => v.set 0 val
  | v, next + 1 =>
    match v[next]? with
    | some x =>
      if comp val x then linear_insert_loop comp val (v.set (next + 1) x) next
      else v.set (next + 1) val
    | none => v.set (next + 1) val

/-- The routine `__unguarded_linear_insert(last, comp)`. -/
def unguarded_linear_insert {T : Type} (comp : T → T → Bool) (v : List T) (last : Nat) :
    List T :=
  match v[last]? with
  | some val => linear_insert_loop comp val v last
  | none => v

/-- One pass of the loop of `__insertion_sort(first, last, comp)`, for the position `i`: the
element moves to the front of the range behind a `move_backward`, or is inserted linearly. -/
def insertion_sort_pass {T : Type} (comp : T → T → Bool) (v : List T) (first i : Nat) :
    List T :=
  if comp_iter comp v i first then
    match v[i]? with
    | some val => v.take first ++ val :: ((v.drop first).take (i - first)) ++ v.drop (i + 1)
    | none => v
  else unguarded_linear_insert comp v i

/-- The loop of `__insertion_sort` over the positions from `i` on. -/
def insertion_sort_loop {T : Type} (comp : T → T → Bool) (first : Nat) :
    Nat → List T → Nat → List T
  | 0, v, _ => v
  | passes + 1, v, i =>
    insertion_sort_loop comp first passes (insertion_sort_pass comp v first i) (i + 1)

/-- The routine `__insertion_sort(first, last, comp)`. -/
def stl_insertion_sort {T : Type} (comp : T → T → Bool) (v : List T) (first last : Nat) :
    List T :=
  if first = last then v else insertion_sort_loop comp first (last - (first + 1)) v (first + 1)

/-- The routine `__unguarded_insertion_sort(first, last, comp)`, with the number of positions. -/
def unguarded_insertion_sort {T : Type} (comp : T → T → Bool) : Nat → List T → Nat → List T
  | 0, v, _ => v
  | passes + 1, v, i =>
    unguarded_insertion_sort comp passes (unguarded_linear_insert comp v i) (i + 1)

/-- The constant `_S_threshold`. -/
def S_threshold : Nat := 16

/-- The routine `__final_insertion_sort(first, last, comp)`. -/
def final_insertion_sort {T : Type} (comp : T → T → Bool) (v : List T) (first last : Nat) :
    List T :=
  if last - first > S_threshold then
    unguarded_insertion_sort comp (last - (first + S_threshold))
      (stl_insertion_sort comp v first (first + S_threshold)) (first + S_threshold)
  else stl_insertion_sort comp v first last

/-- The routine `__introsort_loop(first, last, depth_limit, comp)`: every pass of its loop and
every nested call lowers the depth limit by one. -/
def introsort_loop {T : Type} (comp : T → T → Bool) : Nat → List T → Nat → Nat → List T
  | 0, v, first, last =>
    if last - first > S_threshold then heap_sort_range comp v first last last else v
  | depth_limit + 1, v, first, last =>
    if last - first > S_threshold then
      match unguarded_partition_pivot comp v first last with
      | (v', cut) =>
        introsort_loop comp depth_limit (introsort_loop comp depth_limit v' cut last) first cut
    else v

/-- The routine `std::sort(first, last, comp)` of libstdc++ on a whole vector. -/
def std_sort {T : Type} (comp : T → T → Bool) (v : List T) : List T :=
  if v.length = 0 then v
  else final_insertion_sort comp (introsort_loop comp (Nat.log2 v.length * 2) v 0 v.length)
    0 v.length

/-- A batch of 17 results with the same score 15 and the values 0 to 16 of `G`. -/
def tied_batch : List (AvalancheStatistics ℚ) :=
  (List.range 17).map (fun i => example_result i 32 1 0)

/-! ## Lemmas on the machine arithmetic -/

theorem popcount_two_pow : ∀ k, k < 64 → popcount (2 ^ k) = 1 := by decide

theorem popcount_le (x : Nat) : popcount x ≤ 64 := by
  unfold popcount
  exact (List.length_filter_le _ _).trans (by simp)

theorem one_shiftLeft_bit_index (r : Nat) :
    (1 <<< bit_index r) % UINT64_SIZE = 2 ^ bit_index r := by
  have hk : bit_index r < 64 := Nat.mod_lt _ (by decide)
  rw [Nat.one_shiftLeft]
  exact Nat.mod_eq_of_lt (Nat.pow_lt_pow_right (by decide) hk)

theorem xor_perturb (state r : Nat) : state ^^^ perturb state r = 2 ^ bit_index r := by
  unfold perturb
  rw [one_shiftLeft_bit_index, ← Nat.xor_assoc, Nat.xor_self, Nat.zero_xor]

/-! ## C1: the mixing map -/

/-- C1 (counterexample): for the 64-bit state `2^63` (a value the sampler produces), `G = 2` and
`P = 3` the evaluator's mapped value is 0, while `(state * G) mod P` over the unbounded integers
is 1: the product is truncated to 64 bits before the reduction. -/
theorem mix_truncation_counterexample :
    sample_state 0 = 2 ^ 63 ∧ 2 ^ 63 < 2 ^ 64 ∧ 1 < 3 ∧
      mix 3 2 (2 ^ 63) = 0 ∧ (2 ^ 63 * 2) % 3 = 1 ∧ mix 3 2 (2 ^ 63) ≠ (2 ^ 63 * 2) % 3 := by
  decide

/-- C1 (amended): for every modulus `P > 1`, every `G` and every operand `x` (the state or the
modified state) the mapped value is `((x * G) mod 2^64) mod P`, it is below `P`, and it equals
`(x * G) mod P` over the unbounded integers whenever the product fits in 64 bits or `P` divides
`2^64`. -/
theorem mix_eq_mod (P G x : Nat) (hP : 1 < P) :
    mix P G x = ((x * G) % 2 ^ 64) % P ∧ mix P G x < P ∧
      ((x * G < 2 ^ 64 ∨ P ∣ 2 ^ 64) → mix P G x = (x * G) % P) := by
  refine ⟨rfl, Nat.mod_lt _ (by omega), ?_⟩
  rintro (h | h)
  · unfold mix UINT64_SIZE
    rw [Nat.mod_eq_of_lt h]
  · unfold mix UINT64_SIZE
    exact Nat.mod_mod_of_dvd _ h

/-- Witness of `mix_eq_mod`: `P = 7`, `G = 3`, `x = 5`. -/
theorem mix_eq_mod_witness :
    1 < 7 ∧ (mix 7 3 5 = ((5 * 3) % 2 ^ 64) % 7 ∧ mix 7 3 5 < 7 ∧
      ((5 * 3 < 2 ^ 64 ∨ 7 ∣ 2 ^ 64) → mix 7 3 5 = (5 * 3) % 7)) :=
  ⟨by decide, mix_eq_mod 7 3 5 (by decide)⟩

/-! ## C2: the range of the sampled state -/

/-- C2 (counterexample): the lower bound of the state distribution is not 0, and the 64-bit
value 0 is never produced as `state`. -/
theorem sample_state_counterexample :
    ¬ (dist_a = 0 ∧ dist_b = 2 ^ 64 - 1) ∧ ¬ ∃ u, sample_state u = 0 := by
  constructor
  · decide
  · rintro ⟨u, hu⟩
    have : dist_a = 2 ^ 63 := by decide
    unfold sample_state uniform_int_distribution at hu
    omega

/-- C2 (amended): the inclusive bounds of the state distribution are `2^63` and `2^64 - 1`;
every sampled state lies between them, and every value between them is produced by some draw. -/
theorem sample_state_range :
    dist_a = 2 ^ 63 ∧ dist_b = 2 ^ 64 - 1 ∧
      (∀ u, 2 ^ 63 ≤ sample_state u ∧ sample_state u ≤ 2 ^ 64 - 1) ∧
      (∀ v, 2 ^ 63 ≤ v ∧ v ≤ 2 ^ 64 - 1 → ∃ u, sample_state u = v) := by
  have ha : dist_a = 2 ^ 63 := by decide
  have hb : dist_b = 2 ^ 64 - 1 := by decide
  refine ⟨ha, hb, ?_, ?_⟩
  · intro u
    unfold sample_state uniform_int_distribution
    rw [ha, hb]
    have := Nat.mod_lt u (show 0 < 2 ^ 64 - 1 - 2 ^ 63 + 1 by norm_num)
    omega
  · rintro v ⟨h1, h2⟩
    refine ⟨v - 2 ^ 63, ?_⟩
    unfold sample_state uniform_int_distribution
    rw [ha, hb, Nat.mod_eq_of_lt (by omega)]
    omega

/-! ## C3: the perturbed twin -/

/-- C3: for every 64-bit state and every raw generator output `r`, the bit index `r mod 64` is
below 64, the twin `state XOR (1 << (r mod 64))` is again a 64-bit value, and the twin differs
from the state in exactly one bit. -/
theorem perturb_one_bit (state r : Nat) (hs : state < 2 ^ 64) :
    bit_index r < 64 ∧ perturb state r < 2 ^ 64 ∧
      perturb state r = state ^^^ (1 <<< (gen_output r % 64)) ∧
      popcount (state ^^^ perturb state r) = 1 ∧ hamming_distance state (perturb state r) = 1 := by
  have hk : bit_index r < 64 := Nat.mod_lt _ (by decide)
  have hpc : popcount (state ^^^ perturb state r) = 1 := by
    rw [xor_perturb]; exact popcount_two_pow _ hk
  refine ⟨hk, ?_, ?_, hpc, ?_⟩
  · unfold perturb
    rw [one_shiftLeft_bit_index]
    exact Nat.xor_lt_two_pow hs (Nat.pow_lt_pow_right (by decide) hk)
  · unfold perturb
    rw [one_shiftLeft_bit_index, Nat.one_shiftLeft]; rfl
  · unfold hamming_distance
    rw [hpc]; rfl

/-- Witness of `perturb_one_bit`: the state `2^63 + 5` and the raw output 70 (bit index 6). -/
theorem perturb_one_bit_witness :
    2 ^ 63 + 5 < 2 ^ 64 ∧ (bit_index 70 < 64 ∧ perturb (2 ^ 63 + 5) 70 < 2 ^ 64 ∧
      perturb (2 ^ 63 + 5) 70 = (2 ^ 63 + 5) ^^^ (1 <<< (gen_output 70 % 64)) ∧
      popcount ((2 ^ 63 + 5) ^^^ perturb (2 ^ 63 + 5) 70) = 1 ∧
      hamming_distance (2 ^ 63 + 5) (perturb (2 ^ 63 + 5) 70) = 1) :=
  ⟨by decide, perturb_one_bit (2 ^ 63 + 5) 70 (by decide)⟩


theorem wrap_int_of_range (x : Int) (h1 : -2 ^ 31 ≤ x) (h2 : x < 2 ^ 31) : wrap_int x = x := by
  unfold wrap_int
  omega

theorem hamming_distance_range (a b : Nat) :
    0 ≤ hamming_distance a b ∧ hamming_distance a b ≤ 64 := by
  unfold hamming_distance
  have := popcount_le (a ^^^ b)
  omega

theorem bitsChanged_range (P G : Nat) (rng : Nat → Nat) (i : Nat) :
    0 ≤ bitsChanged P G rng i ∧ bitsChanged P G rng i ≤ 64 :=
  hamming_distance_range _ _

theorem histogram_count_le_total (h : Histogram) (hpos : ∀ e ∈ h, 0 ≤ e.2) :
    ∀ e ∈ h, e.2 ≤ histogram_total h := by
  induction h with
  | nil => intro e he; cases he
  | cons a t ih =>
    intro e he
    have ht : 0 ≤ histogram_total t := by
      unfold histogram_total
      apply List.sum_nonneg
      intro x hx
      obtain ⟨y, hy, rfl⟩ := List.mem_map.mp hx
      exact hpos y (List.mem_cons_of_mem _ hy)
    have ha := hpos a (List.mem_cons_self _ _)
    have hcons : histogram_total (a :: t) = a.2 + histogram_total t := by
      simp [histogram_total]
    rw [hcons]
    rcases List.mem_cons.mp he with rfl | he'
    · omega
    · have := ih (fun x hx => hpos x (List.mem_cons_of_mem _ hx)) e he'
      omega

theorem histogram_incr_total (h : Histogram) (k : Int)
    (hb : ∀ e ∈ h, 0 ≤ e.2 ∧ e.2 < 2 ^ 31 - 1) :
    histogram_total (histogram_incr h k) = histogram_total h + 1 := by
  induction h with
  | nil => simp [histogram_incr, histogram_total, wrap_int]
  | cons a t ih =>
    obtain ⟨k', c⟩ := a
    have hc := hb (k', c) (List.mem_cons_self _ _)
    simp only [histogram_incr]
    split_ifs with h1 h2
    · simp [histogram_total, wrap_int]; ring
    · rw [wrap_int_of_range _ (by simp at hc ⊢; omega) (by simp at hc ⊢; omega)]
      simp [histogram_total]; ring
    · have := ih (fun e he => hb e (List.mem_cons_of_mem _ he))
      simp only [histogram_total, List.map_cons, List.sum_cons] at this ⊢
      rw [this]; ring

theorem histogram_incr_weighted (h : Histogram) (k : Int)
    (hb : ∀ e ∈ h, 0 ≤ e.2 ∧ e.2 < 2 ^ 31 - 1) :
    histogram_weighted (histogram_incr h k) = histogram_weighted h + k := by
  induction h with
  | nil => simp [histogram_incr, histogram_weighted, wrap_int]
  | cons a t ih =>
    obtain ⟨k', c⟩ := a
    have hc := hb (k', c) (List.mem_cons_self _ _)
    simp only [histogram_incr]
    split_ifs with h1 h2
    · simp [histogram_weighted, wrap_int]; ring
    · rw [wrap_int_of_range _ (by simp at hc ⊢; omega) (by simp at hc ⊢; omega)]
      simp [histogram_weighted, h2]; ring
    · have := ih (fun e he => hb e (List.mem_cons_of_mem _ he))
      simp only [histogram_weighted, List.map_cons, List.sum_cons] at this ⊢
      rw [this]; ring

theorem histogram_incr_mem (h : Histogram) (k : Int)
    (hb : ∀ e ∈ h, 0 ≤ e.2 ∧ e.2 < 2 ^ 31 - 1) :
    ∀ e ∈ histogram_incr h k, (e.1 = k ∧ 0 < e.2) ∨ e ∈ h := by
  induction h with
  | nil =>
    intro e he
    simp [histogram_incr, wrap_int] at he
    left; rw [he]; simp
  | cons a t ih =>
    obtain ⟨k', c⟩ := a
    have hc := hb (k', c) (List.mem_cons_self _ _)
    intro e he
    simp only [histogram_incr] at he
    split_ifs at he with h1 h2
    · rcases List.mem_cons.mp he with rfl | he'
      · left; simp [wrap_int]
      · right; exact he'
    · rcases List.mem_cons.mp he with rfl | he'
      · left
        rw [wrap_int_of_range _ (by simp at hc ⊢; omega) (by simp at hc ⊢; omega)]
        simp at hc ⊢
        exact ⟨h2.symm, by omega⟩
      · right; exact List.mem_cons_of_mem _ he'
    · rcases List.mem_cons.mp he with rfl | he'
      · right; exact List.mem_cons_self _ _
      · rcases ih (fun e he => hb e (List.mem_cons_of_mem _ he)) e he' with h3 | h3
        · left; exact h3
        · right; exact List.mem_cons_of_mem _ h3

theorem histogram_incr_keys (h : Histogram) (k x : Int) :
    x ∈ (histogram_incr h k).map (fun e => e.1) ↔ x = k ∨ x ∈ h.map (fun e => e.1) := by
  induction h with
  | nil => simp [histogram_incr]
  | cons a t ih =>
    obtain ⟨k', c⟩ := a
    simp only [histogram_incr]
    split_ifs with h1 h2
    · simp
    · subst h2; simp
    · simp only [List.map_cons, List.mem_cons, ih]
      tauto

theorem histogram_incr_wf (h : Histogram) (k : Int) (hk : 0 ≤ k ∧ k ≤ 64)
    (hwf : HistogramWF h) (hb : ∀ e ∈ h, 0 ≤ e.2 ∧ e.2 < 2 ^ 31 - 1) :
    HistogramWF (histogram_incr h k) := by
  refine ⟨?_, ?_⟩
  · clear hb
    have hs := hwf.1
    clear hwf
    induction h with
    | nil => simp [histogram_incr]
    | cons a t ih =>
      obtain ⟨k', c⟩ := a
      rw [List.pairwise_cons] at hs
      simp only [histogram_incr]
      split_ifs with h1 h2
      · refine List.Pairwise.cons ?_ (List.Pairwise.cons hs.1 hs.2)
        intro e he
        rcases List.mem_cons.mp he with rfl | he'
        · exact h1
        · exact lt_trans h1 (hs.1 e he')
      · exact List.Pairwise.cons hs.1 hs.2
      · refine List.Pairwise.cons ?_ (ih hs.2)
        intro e he
        have hx : e.1 ∈ (histogram_incr t k).map (fun e => e.1) := List.mem_map_of_mem _ he
        rcases (histogram_incr_keys t k e.1).mp hx with h3 | h3
        · have : k' < k := lt_of_le_of_ne (not_lt.mp h1) (fun h => h2 h.symm)
          rw [h3]; exact this
        · obtain ⟨y, hy, hy'⟩ := List.mem_map.mp h3
          have := hs.1 y hy
          have hy2 : y.1 = e.1 := hy'
          rw [← hy2]; exact this
  · intro e he
    rcases histogram_incr_mem h k hb e he with ⟨h1, h2⟩ | h1
    · rw [h1]; exact ⟨hk, h2⟩
    · exact hwf.2 e h1

theorem histogram_weighted_bounds (h : Histogram) (hwf : ∀ e ∈ h, (0 ≤ e.1 ∧ e.1 ≤ 64) ∧ 0 < e.2) :
    0 ≤ histogram_weighted h ∧ histogram_weighted h ≤ 64 * histogram_total h := by
  induction h with
  | nil => simp [histogram_weighted, histogram_total]
  | cons a t ih =>
    have ha := hwf a (List.mem_cons_self _ _)
    have := ih (fun e he => hwf e (List.mem_cons_of_mem _ he))
    simp only [histogram_weighted, histogram_total, List.map_cons, List.sum_cons] at this ⊢
    have h1 : 0 ≤ a.1 * a.2 := mul_nonneg ha.1.1 (le_of_lt ha.2)
    have h2 : a.1 * a.2 ≤ 64 * a.2 := mul_le_mul_of_nonneg_right ha.1.2 (le_of_lt ha.2)
    constructor <;> linarith

/-- The histogram part of the loop invariant: after `n` iterations, with `n` below `2^31`, the
histogram is well formed, its counts sum to `n`, and its keys are the values of `bitsChanged`
that occurred. -/
theorem avalanche_loop_histogram (P G : Nat) (rng : Nat → Nat) (n : Nat) (hn : n < 2 ^ 31) :
    HistogramWF (avalanche_loop P G rng n).histogram ∧
      histogram_total (avalanche_loop P G rng n).histogram = n ∧
      ∀ k, k ∈ (avalanche_loop P G rng n).histogram.map (fun e => e.1) ↔
        ∃ i, i < n ∧ bitsChanged P G rng i = k := by
  induction n with
  | zero =>
    refine ⟨⟨List.Pairwise.nil, fun e he => by cases he⟩, by simp [avalanche_loop, LoopState.init, histogram_total], ?_⟩
    intro k
    simp [avalanche_loop, LoopState.init]
  | succ n ih =>
    obtain ⟨hwf, htot, hkeys⟩ := ih (by omega)
    have hb : ∀ e ∈ (avalanche_loop P G rng n).histogram, 0 ≤ e.2 ∧ e.2 < 2 ^ 31 - 1 := by
      intro e he
      have h1 := (hwf.2 e he).2
      have h2 := histogram_count_le_total _ (fun x hx => le_of_lt (hwf.2 x hx).2) e he
      rw [htot] at h2
      constructor
      · omega
      · have : (n : Int) + 1 < 2 ^ 31 := by exact_mod_cast hn
        omega
    refine ⟨?_, ?_, ?_⟩
    · exact histogram_incr_wf _ _ (bitsChanged_range P G rng n) hwf hb
    · show histogram_total (histogram_incr _ _) = _
      rw [histogram_incr_total _ _ hb, htot]; push_cast; ring
    · intro k
      show k ∈ (histogram_incr _ _).map _ ↔ _
      rw [histogram_incr_keys, hkeys]
      constructor
      · rintro (h | ⟨i, hi, h⟩)
        · exact ⟨n, by omega, h.symm⟩
        · exact ⟨i, by omega, h⟩
      · rintro ⟨i, hi, h⟩
        rcases Nat.lt_succ_iff_lt_or_eq.mp hi with h' | h'
        · right; exact ⟨i, h', h⟩
        · left; rw [← h, h']

/-- The sum part of the loop invariant: after `n` iterations, with `64 * n` below `2^31`, the
running sum equals the histogram-weighted sum. -/
theorem avalanche_loop_sum (P G : Nat) (rng : Nat → Nat) (n : Nat) (hn : 64 * n < 2 ^ 31) :
    (avalanche_loop P G rng n).sumBitChanges =
      histogram_weighted (avalanche_loop P G rng n).histogram := by
  induction n with
  | zero => simp [avalanche_loop, LoopState.init, histogram_weighted]
  | succ n ih =>
    have ihn := ih (by omega)
    obtain ⟨hwf, htot, -⟩ := avalanche_loop_histogram P G rng n (by omega)
    have hb : ∀ e ∈ (avalanche_loop P G rng n).histogram, 0 ≤ e.2 ∧ e.2 < 2 ^ 31 - 1 := by
      intro e he
      have h1 := (hwf.2 e he).2
      have h2 := histogram_count_le_total _ (fun x hx => le_of_lt (hwf.2 x hx).2) e he
      rw [htot] at h2
      constructor
      · omega
      · have : (64 : Int) * ((n : Int) + 1) < 2 ^ 31 := by exact_mod_cast hn
        omega
    have hw := histogram_weighted_bounds _ hwf.2
    rw [htot] at hw
    have hbits := bitsChanged_range P G rng n
    show wrap_int (_ + _) = histogram_weighted (histogram_incr _ _)
    rw [histogram_incr_weighted _ _ hb, ihn]
    apply wrap_int_of_range
    · omega
    · have : (64 : Int) * ((n : Int) + 1) < 2 ^ 31 := by exact_mod_cast hn
      omega


theorem foldl_add_eq_sum {α β : Type} [AddCommMonoid α] (f : β → α) (l : List β) (a : α) :
    l.foldl (fun acc e => acc + f e) a = a + (l.map f).sum := by
  induction l generalizing a with
  | nil => simp
  | cons x t ih => simp [List.foldl_cons, ih, add_assoc]

theorem sumOfSquaredDifferences_eq_sum {α : Type} [LinearOrderedField α] (average : α)
    (h : Histogram) :
    sumOfSquaredDifferences average h =
      (h.map (fun e => ((e.1 : α) - average) * ((e.1 : α) - average) * (e.2 : α))).sum := by
  unfold sumOfSquaredDifferences
  rw [foldl_add_eq_sum (fun e : Int × Int => ((e.1 : α) - average) * ((e.1 : α) - average) * (e.2 : α))]
  simp

theorem sumOfSquaredDifferences_nonneg {α : Type} [LinearOrderedField α] (average : α)
    (h : Histogram) (hpos : ∀ e ∈ h, 0 < e.2) : 0 ≤ sumOfSquaredDifferences average h := by
  rw [sumOfSquaredDifferences_eq_sum]
  apply List.sum_nonneg
  intro x hx
  obtain ⟨e, he, rfl⟩ := List.mem_map.mp hx
  have : (0 : α) ≤ (e.2 : α) := by exact_mod_cast le_of_lt (hpos e he)
  exact mul_nonneg (mul_self_nonneg _) this

theorem sumOfSquaredDifferences_eq_zero_iff {α : Type} [LinearOrderedField α] (average : α)
    (h : Histogram) (hpos : ∀ e ∈ h, 0 < e.2) :
    sumOfSquaredDifferences average h = 0 ↔ ∀ e ∈ h, (e.1 : α) = average := by
  induction h with
  | nil => simp [sumOfSquaredDifferences]
  | cons a t ih =>
    have hpt : ∀ e ∈ t, 0 < e.2 := fun e he => hpos e (List.mem_cons_of_mem _ he)
    have ht := sumOfSquaredDifferences_nonneg average t hpt
    have iht := ih hpt
    have ha : (0 : α) < (a.2 : α) := by exact_mod_cast hpos a (List.mem_cons_self _ _)
    have hcons : sumOfSquaredDifferences average (a :: t) =
        ((a.1 : α) - average) * ((a.1 : α) - average) * (a.2 : α) +
          sumOfSquaredDifferences average t := by
      rw [sumOfSquaredDifferences_eq_sum, sumOfSquaredDifferences_eq_sum]
      simp
    have hsq : 0 ≤ ((a.1 : α) - average) * ((a.1 : α) - average) * (a.2 : α) :=
      mul_nonneg (mul_self_nonneg _) (le_of_lt ha)
    rw [hcons]
    constructor
    · intro h0
      have h1 : ((a.1 : α) - average) * ((a.1 : α) - average) * (a.2 : α) = 0 := by linarith
      have h2 : sumOfSquaredDifferences average t = 0 := by linarith
      intro e he
      rcases List.mem_cons.mp he with rfl | he'
      · rcases mul_eq_zero.mp h1 with h3 | h3
        · have := mul_self_eq_zero.mp h3
          linarith
        · exact absurd h3 (ne_of_gt ha)
      · exact iht.mp h2 e he'
    · intro hall
      have h1 := hall a (List.mem_cons_self _ _)
      have h2 := iht.mpr (fun e he => hall e (List.mem_cons_of_mem _ he))
      rw [h1, h2]; simp

/-- In a well-formed histogram with a positive total, all keys coincide exactly when there is a
single entry. -/
theorem histogram_single_key_iff (h : Histogram) (hwf : HistogramWF h)
    (htot : 0 < histogram_total h) :
    (∀ e ∈ h, ∀ e' ∈ h, e.1 = e'.1) ↔ h.length = 1 := by
  constructor
  · intro hall
    match h, hwf, htot, hall with
    | [], _, htot, _ => simp [histogram_total] at htot
    | [a], _, _, _ => rfl
    | a :: b :: t, hwf, _, hall =>
      have h1 := (List.pairwise_cons.mp hwf.1).1 b (List.mem_cons_self _ _)
      have h2 := hall a (List.mem_cons_self _ _) b (List.mem_cons_of_mem _ (List.mem_cons_self _ _))
      omega
  · intro hlen
    match h, hlen with
    | [a], _ =>
      intro e he e' he'
      rw [List.mem_singleton.mp he, List.mem_singleton.mp he']


theorem avalanche_quality_with_eq_some {α : Type} [LinearOrderedField α] (sqrt : α → α)
    (n P G : Nat) (rng : Nat → Nat) (hP : 1 ≤ P) :
    avalanche_quality_with sqrt n P G rng =
      some (avalanche_statistics sqrt n P G (avalanche_loop P G rng n)) := by
  unfold avalanche_quality_with
  rw [if_neg]
  omega

/-! ## C4: keys and total of the histogram -/

/-- C4: for every candidate with `P ≥ 1`, every random stream and every trial count `n` that the
`int` loop counter can pass (`n < 2^31 - 1`), the evaluator returns a result, every key of the
returned histogram lies in `[0, 64]` and the occurrence counts sum to exactly `n`; in particular
the counts of `avalanche_quality` sum to 10,000,000. -/
theorem avalanche_histogram_keys_total {α : Type} [LinearOrderedField α] (sqrt : α → α)
    (P G : Nat) (rng : Nat → Nat) (n : Nat) (hP : 1 ≤ P) (hn : n < 2 ^ 31 - 1) :
    (∃ r, avalanche_quality_with sqrt n P G rng = some r ∧
        (∀ e ∈ r.histogram, 0 ≤ e.1 ∧ e.1 ≤ 64) ∧ histogram_total r.histogram = n) ∧
      (∃ r, avalanche_quality sqrt P G rng = some r ∧
        (∀ e ∈ r.histogram, 0 ≤ e.1 ∧ e.1 ≤ 64) ∧ histogram_total r.histogram = 10000000) := by
  have key : ∀ m : Nat, m < 2 ^ 31 →
      ∃ r, avalanche_quality_with sqrt m P G rng = some r ∧
        (∀ e ∈ r.histogram, 0 ≤ e.1 ∧ e.1 ≤ 64) ∧ histogram_total r.histogram = m := by
    intro m hm
    obtain ⟨hwf, htot, -⟩ := avalanche_loop_histogram P G rng m hm
    exact ⟨_, avalanche_quality_with_eq_some sqrt m P G rng hP, fun e he => (hwf.2 e he).1, htot⟩
  exact ⟨key n (by omega), key 10000000 (by norm_num)⟩

/-- Witness of `avalanche_histogram_keys_total`: `P = 1000000007`, `G = 5`, 20 trials. -/
theorem avalanche_histogram_keys_total_witness :
    1 ≤ 1000000007 ∧ 20 < 2 ^ 31 - 1 ∧
      ((∃ r, avalanche_quality_with (fun x : ℚ => x) 20 1000000007 5
            (fun i => i * 7919 + 13) = some r ∧
          (∀ e ∈ r.histogram, 0 ≤ e.1 ∧ e.1 ≤ 64) ∧ histogram_total r.histogram = (20 : Nat)) ∧
        (∃ r, avalanche_quality (fun x : ℚ => x) 1000000007 5 (fun i => i * 7919 + 13) = some r ∧
          (∀ e ∈ r.histogram, 0 ≤ e.1 ∧ e.1 ≤ 64) ∧ histogram_total r.histogram = 10000000)) :=
  ⟨by decide, by decide,
    avalanche_histogram_keys_total (fun x : ℚ => x) 1000000007 5 (fun i => i * 7919 + 13) 20
      (by decide) (by decide)⟩

/-! ## C5: the raw sum and the histogram-weighted sum -/

/-- C5: for every evaluation with `P ≥ 1` whose trial count `n` keeps the `int`
running sum in range (`64 * n < 2^31`, which holds for the 10,000,000 trials of the source), the
evaluator returns a result, the raw running sum of `bitsChanged` equals the histogram-weighted
sum, and the reported mean (raw sum over `n`) equals the mean computed from the returned
histogram; the same for `avalanche_quality` itself. -/
theorem avalanche_mean_eq_histogram_mean {α : Type} [LinearOrderedField α] (sqrt : α → α)
    (P G : Nat) (rng : Nat → Nat) (n : Nat) (hP : 1 ≤ P) (hn : 64 * n < 2 ^ 31) :
    (∃ r, avalanche_quality_with sqrt n P G rng = some r ∧
        (avalanche_loop P G rng n).sumBitChanges = histogram_weighted r.histogram ∧
        r.mean = ((avalanche_loop P G rng n).sumBitChanges : α) / (n : α) ∧
        r.mean = histogram_mean r.histogram n) ∧
      (∃ r, avalanche_quality sqrt P G rng = some r ∧
        (avalanche_loop P G rng iterations).sumBitChanges = histogram_weighted r.histogram ∧
        r.mean = ((avalanche_loop P G rng iterations).sumBitChanges : α) / (iterations : α) ∧
        r.mean = histogram_mean r.histogram iterations) := by
  have key : ∀ m : Nat, 64 * m < 2 ^ 31 →
      ∃ r, avalanche_quality_with sqrt m P G rng = some r ∧
        (avalanche_loop P G rng m).sumBitChanges = histogram_weighted r.histogram ∧
        r.mean = ((avalanche_loop P G rng m).sumBitChanges : α) / (m : α) ∧
        r.mean = histogram_mean r.histogram m := by
    intro m hm
    have h := avalanche_loop_sum P G rng m hm
    refine ⟨_, avalanche_quality_with_eq_some sqrt m P G rng hP, h, rfl, ?_⟩
    show ((avalanche_loop P G rng m).sumBitChanges : α) / (m : α) =
      (histogram_weighted (avalanche_loop P G rng m).histogram : α) / (m : α)
    rw [h]
  exact ⟨key n hn, key iterations (by norm_num [iterations])⟩

/-- Witness of `avalanche_mean_eq_histogram_mean`: `P = 1000000007`, `G = 5`, 20 trials. -/
theorem avalanche_mean_eq_histogram_mean_witness :
    1 ≤ 1000000007 ∧ 64 * 20 < 2 ^ 31 ∧
      ((∃ r, avalanche_quality_with (fun x : ℚ => x) 20 1000000007 5
            (fun i => i * 7919 + 13) = some r ∧
          (avalanche_loop 1000000007 5 (fun i => i * 7919 + 13) 20).sumBitChanges =
            histogram_weighted r.histogram ∧
          r.mean = ((avalanche_loop 1000000007 5 (fun i => i * 7919 + 13) 20).sumBitChanges : ℚ) /
            ((20 : Nat) : ℚ) ∧
          r.mean = histogram_mean r.histogram 20) ∧
        (∃ r, avalanche_quality (fun x : ℚ => x) 1000000007 5 (fun i => i * 7919 + 13) = some r ∧
          (avalanche_loop 1000000007 5 (fun i => i * 7919 + 13) iterations).sumBitChanges =
            histogram_weighted r.histogram ∧
          r.mean = ((avalanche_loop 1000000007 5 (fun i => i * 7919 + 13)
            iterations).sumBitChanges : ℚ) / (iterations : ℚ) ∧
          r.mean = histogram_mean r.histogram iterations)) :=
  ⟨by decide, by decide,
    avalanche_mean_eq_histogram_mean (fun x : ℚ => x) 1000000007 5 (fun i => i * 7919 + 13) 20
      (by decide) (by decide)⟩

/-! ## C6: the standard deviation -/

/-- C6: for every evaluation with `P ≥ 1` and a trial count `n > 0` that keeps the running sum
in range, the evaluator returns a result whose standard deviation (over the reals, with the real
square root) is non-negative, and is 0 if and only if every trial produced the same
`bitsChanged`, if and only if the histogram has a single key. -/
theorem avalanche_stddev_zero_iff (P G : Nat) (rng : Nat → Nat) (n : Nat) (hP : 1 ≤ P)
    (hpos : 0 < n) (hn : 64 * n < 2 ^ 31) :
    ∃ r, avalanche_quality_with Real.sqrt n P G rng = some r ∧ 0 ≤ r.stddev ∧
      (r.stddev = 0 ↔ ∀ i j, i < n → j < n → bitsChanged P G rng i = bitsChanged P G rng j) ∧
      (r.stddev = 0 ↔ r.histogram.length = 1) := by
  refine ⟨_, avalanche_quality_with_eq_some Real.sqrt n P G rng hP, ?_⟩
  obtain ⟨hwf, htot, hkeys⟩ := avalanche_loop_histogram P G rng n (by omega)
  have hsum := avalanche_loop_sum P G rng n hn
  set h := (avalanche_loop P G rng n).histogram with hh
  have hnR : (0 : ℝ) < (n : ℝ) := by exact_mod_cast hpos
  have hcnt : ∀ e ∈ h, 0 < e.2 := fun e he => (hwf.2 e he).2
  have htot0 : 0 < histogram_total h := by rw [htot]; exact_mod_cast hpos
  -- the standard deviation vanishes exactly when every key equals the mean
  have hstd : (avalanche_statistics Real.sqrt n P G (avalanche_loop P G rng n)).stddev = 0 ↔
      ∀ e ∈ h, ((e.1 : Int) : ℝ) = ((avalanche_loop P G rng n).sumBitChanges : ℝ) / (n : ℝ) := by
    show Real.sqrt (sumOfSquaredDifferences _ h / (n : ℝ)) = 0 ↔ _
    rw [Real.sqrt_eq_zero (div_nonneg (sumOfSquaredDifferences_nonneg _ h hcnt) (le_of_lt hnR)),
      div_eq_zero_iff, sumOfSquaredDifferences_eq_zero_iff _ h hcnt]
    constructor
    · rintro (h1 | h1)
      · exact h1
      · exact absurd h1 (ne_of_gt hnR)
    · intro h1; exact Or.inl h1
  -- every key equals the mean exactly when all keys coincide
  have hmean : (∀ e ∈ h, ((e.1 : Int) : ℝ) =
      ((avalanche_loop P G rng n).sumBitChanges : ℝ) / (n : ℝ)) ↔
      ∀ e ∈ h, ∀ e' ∈ h, e.1 = e'.1 := by
    constructor
    · intro hall e he e' he'
      have := (hall e he).trans (hall e' he').symm
      exact_mod_cast this
    · intro hall
      have hlen := (histogram_single_key_iff h hwf htot0).mp hall
      match h, hlen, htot, hsum with
      | [a], _, htot, hsum =>
        intro e he
        rw [List.mem_singleton.mp he, hsum]
        simp only [histogram_total, List.map_cons, List.map_nil, List.sum_cons, List.sum_nil,
          add_zero] at htot
        simp only [histogram_weighted, List.map_cons, List.map_nil, List.sum_cons, List.sum_nil,
          add_zero]
        rw [htot]
        push_cast
        field_simp
  -- all keys coincide exactly when all trials agree
  have htrials : (∀ e ∈ h, ∀ e' ∈ h, e.1 = e'.1) ↔
      ∀ i j, i < n → j < n → bitsChanged P G rng i = bitsChanged P G rng j := by
    constructor
    · intro hall i j hi hj
      obtain ⟨e, he, he1⟩ := List.mem_map.mp ((hkeys _).mpr ⟨i, hi, rfl⟩)
      obtain ⟨e', he', he1'⟩ := List.mem_map.mp ((hkeys _).mpr ⟨j, hj, rfl⟩)
      have := hall e he e' he'
      have he2 : e.1 = bitsChanged P G rng i := he1
      have he2' : e'.1 = bitsChanged P G rng j := he1'
      rw [← he2, ← he2']; exact this
    · intro hall e he e' he'
      obtain ⟨i, hi, hbi⟩ := (hkeys e.1).mp (List.mem_map_of_mem _ he)
      obtain ⟨j, hj, hbj⟩ := (hkeys e'.1).mp (List.mem_map_of_mem _ he')
      rw [← hbi, ← hbj]; exact hall i j hi hj
  refine ⟨Real.sqrt_nonneg _, hstd.trans (hmean.trans htrials), ?_⟩
  exact hstd.trans (hmean.trans (histogram_single_key_iff h hwf htot0))

/-- Witness of `avalanche_stddev_zero_iff`: `P = 1000000007`, `G = 5`, 20 trials. -/
theorem avalanche_stddev_zero_iff_witness :
    1 ≤ 1000000007 ∧ 0 < 20 ∧ 64 * 20 < 2 ^ 31 ∧
      ∃ r, avalanche_quality_with Real.sqrt 20 1000000007 5 (fun i => i * 7919 + 13) = some r ∧
        0 ≤ r.stddev ∧
        (r.stddev = 0 ↔ ∀ i j, i < 20 → j < 20 →
          bitsChanged 1000000007 5 (fun i => i * 7919 + 13) i =
            bitsChanged 1000000007 5 (fun i => i * 7919 + 13) j) ∧
        (r.stddev = 0 ↔ r.histogram.length = 1) :=
  ⟨by decide, by decide, by decide,
    avalanche_stddev_zero_iff 1000000007 5 (fun i => i * 7919 + 13) 20 (by decide) (by decide)
      (by decide)⟩

/-! ## Lemmas on the ranker -/

theorem ranking_function_iff {α : Type} [LinearOrderedField α] (a b : AvalancheStatistics α) :
    ranking_function a b = true ↔ score a < score b := by
  simp [ranking_function]

theorem ranking_function_false_iff {α : Type} [LinearOrderedField α]
    (a b : AvalancheStatistics α) : ranking_function a b = false ↔ score b ≤ score a := by
  simp [ranking_function]

theorem ranking_function_swo {α : Type} [LinearOrderedField α] :
    StrictWeakOrdering (ranking_function : AvalancheStatistics α → AvalancheStatistics α → Bool) where
  irrefl a := by simp [ranking_function]
  trans a b c := by
    simp only [ranking_function_iff]
    exact lt_trans
  incomp_trans a b c := by
    simp only [ranking_function_false_iff]
    intro h1 h2 h3 h4
    exact ⟨le_trans h3 h1, le_trans h2 h4⟩

theorem insert_before_perm {T : Type} (comp : T → T → Bool) (x : T) (l : List T) :
    (insert_before comp x l).Perm (x :: l) := by
  induction l with
  | nil => exact List.Perm.refl _
  | cons y ys ih =>
    simp only [insert_before]
    split_ifs
    · exact List.Perm.refl _
    · exact (List.Perm.cons y ih).trans (List.Perm.swap x y ys)

theorem insert_before_sorted {T : Type} (comp : T → T → Bool) (hc : StrictWeakOrdering comp)
    (x : T) (l : List T) (hl : l.Pairwise (fun a b => comp b a = false)) :
    (insert_before comp x l).Pairwise (fun a b => comp b a = false) := by
  induction l with
  | nil => simp [insert_before]
  | cons y ys ih =>
    rw [List.pairwise_cons] at hl
    simp only [insert_before]
    split_ifs with hxy
    · refine List.Pairwise.cons ?_ (List.Pairwise.cons hl.1 hl.2)
      intro z hz
      rcases List.mem_cons.mp hz with rfl | hz'
      · cases hzx : comp z x with
        | false => rfl
        | true => have := hc.trans _ _ _ hxy hzx; rw [hc.irrefl] at this; cases this
      · cases hzx : comp z x with
        | false => rfl
        | true => have := hc.trans _ _ _ hzx hxy; rw [hl.1 z hz'] at this; cases this
    · refine List.Pairwise.cons ?_ (ih hl.2)
      intro z hz
      rcases List.mem_cons.mp ((insert_before_perm comp x ys).subset hz) with rfl | hz'
      · simpa using hxy
      · exact hl.1 z hz'

theorem insertion_sort_contract {T : Type} :
    StdSortContract (insertion_sort : (T → T → Bool) → List T → List T) := by
  intro comp hc l
  induction l with
  | nil => exact ⟨List.Perm.refl _, List.Pairwise.nil⟩
  | cons x xs ih =>
    refine ⟨?_, ?_⟩
    · exact (insert_before_perm comp x _).trans (List.Perm.cons x ih.1)
    · exact insert_before_sorted comp hc x _ ih.2

/-- A sort meeting the contract leaves the ranked batch a rearrangement of the collected results
with non-decreasing scores. -/
theorem rank_results_perm_sorted {α : Type} [LinearOrderedField α]
    (sort : (AvalancheStatistics α → AvalancheStatistics α → Bool) →
      List (AvalancheStatistics α) → List (AvalancheStatistics α))
    (hsort : StdSortContract sort) (results : List (AvalancheStatistics α)) :
    (rank_results sort results).Perm results ∧
      (rank_results sort results).Pairwise (fun a b => score a ≤ score b) := by
  obtain ⟨h1, h2⟩ := hsort ranking_function ranking_function_swo results
  refine ⟨h1, ?_⟩
  exact h2.imp (fun {a b} h => (ranking_function_false_iff b a).mp h)

/-- Two rearrangements of one batch, both with non-decreasing scores, coincide when the scores
of the batch are pairwise distinct. -/
theorem sorted_by_score_unique {α : Type} [LinearOrderedField α]
    (l₁ l₂ : List (AvalancheStatistics α)) (hp : l₁.Perm l₂)
    (h1 : l₁.Pairwise (fun a b => score a ≤ score b))
    (h2 : l₂.Pairwise (fun a b => score a ≤ score b))
    (hd : (l₁.map score).Nodup) : l₁ = l₂ := by
  have hd2 : (l₂.map score).Nodup := (hp.map score).nodup_iff.mp hd
  have strict : ∀ l : List (AvalancheStatistics α), l.Pairwise (fun a b => score a ≤ score b) →
      (l.map score).Nodup → l.Pairwise (fun a b => score a < score b) := by
    intro l hl hn
    rw [List.Nodup, List.pairwise_map] at hn
    exact (hl.and hn).imp (fun {a b} h => lt_of_le_of_ne h.1 h.2)
  haveI : IsAntisymm (AvalancheStatistics α) (fun a b => score a < score b) :=
    ⟨fun a b hab hba => absurd hab (lt_asymm hba)⟩
  exact List.eq_of_perm_of_sorted hp (strict l₁ h1 hd) (strict l₂ h2 hd2)


/-! ## C7: the comparator -/

/-- C7: `ranking_function a b` holds exactly when
`10*|a.mean - 32| + 15*a.stddev + 5*a.zero% < 10*|b.mean - 32| + 15*b.stddev + 5*b.zero%`, and it
is a strict weak ordering: irreflexive, transitive, with a transitive incomparability relation. -/
theorem ranking_function_strict_weak_ordering {α : Type} [LinearOrderedField α] :
    (∀ a b : AvalancheStatistics α, ranking_function a b = true ↔
        10 * |a.mean - 32| + 15 * a.stddev + 5 * a.zero_bits_percentage <
          10 * |b.mean - 32| + 15 * b.stddev + 5 * b.zero_bits_percentage) ∧
      (∀ a : AvalancheStatistics α, ranking_function a a = false) ∧
      (∀ a b c : AvalancheStatistics α, ranking_function a b = true →
        ranking_function b c = true → ranking_function a c = true) ∧
      (∀ a b c : AvalancheStatistics α,
        (ranking_function a b = false ∧ ranking_function b a = false) →
        (ranking_function b c = false ∧ ranking_function c b = false) →
        (ranking_function a c = false ∧ ranking_function c a = false)) ∧
      StrictWeakOrdering
        (ranking_function : AvalancheStatistics α → AvalancheStatistics α → Bool) := by
  have h := ranking_function_swo (α := α)
  refine ⟨fun a b => ranking_function_iff a b, h.irrefl, h.trans, ?_, h⟩
  intro a b c h1 h2
  exact h.incomp_trans a b c h1.1 h1.2 h2.1 h2.2

/-! ## C8: the ranked batch -/

/-- C8: when `std::sort` meets its contract, the ranked batch is a permutation of the collected
results and its scores `10*|mean - 32| + 15*stddev + 5*zero%` are non-decreasing from the first
entry to the last. -/
theorem rank_results_sorted {α : Type} [LinearOrderedField α]
    (sort : (AvalancheStatistics α → AvalancheStatistics α → Bool) →
      List (AvalancheStatistics α) → List (AvalancheStatistics α))
    (hsort : StdSortContract sort) (results : List (AvalancheStatistics α)) :
    (rank_results sort results).Perm results ∧
      (rank_results sort results).Pairwise (fun a b =>
        10 * |a.mean - 32| + 15 * a.stddev + 5 * a.zero_bits_percentage ≤
          10 * |b.mean - 32| + 15 * b.stddev + 5 * b.zero_bits_percentage) := by
  obtain ⟨hperm, hsorted⟩ := hsort ranking_function ranking_function_swo results
  refine ⟨hperm, ?_⟩
  refine List.Pairwise.imp ?_ hsorted
  intro a b hba
  have h := (ranking_function_false_iff b a).mp hba
  unfold score at h
  exact h

/-- Witness of `rank_results_sorted`: insertion sort on a batch of three results. -/
theorem rank_results_sorted_witness :
    StdSortContract
        (insertion_sort : (AvalancheStatistics ℚ → AvalancheStatistics ℚ → Bool) → _ → _) ∧
      ((rank_results insertion_sort
          [example_result 3 33 2 1, example_result 5 32 1 0, example_result 7 30 1 0]).Perm
          [example_result 3 33 2 1, example_result 5 32 1 0, example_result 7 30 1 0] ∧
        (rank_results insertion_sort
          [example_result 3 33 2 1, example_result 5 32 1 0, example_result 7 30 1 0]).Pairwise
          (fun a b =>
            10 * |a.mean - 32| + 15 * a.stddev + 5 * a.zero_bits_percentage ≤
              10 * |b.mean - 32| + 15 * b.stddev + 5 * b.zero_bits_percentage)) :=
  ⟨insertion_sort_contract, rank_results_sorted insertion_sort insertion_sort_contract _⟩

/-! ## C9: ranking twice -/

/-- On two results with equal scores the `std::sort` of libstdc++ changes nothing: a range of
at most 16 elements is sorted by insertion alone. -/
theorem std_sort_two_tied :
    (rank_results std_sort [example_result 3 32 1 0, example_result 5 32 1 0]).map
        (fun e => e.G) = [3, 5] := by
  decide!

/-- C9 (counterexample): with `std::sort` as implemented in libstdc++, ranking the batch of 17
results that all have the score 15 leaves their `G` values in the order 8, 16, 15, ..., 1, and
ranking this already-ranked batch again leaves them in the order 9, 1, 2, ..., 16: the second
sort does not return the sequence it was given. -/
theorem rank_results_twice_counterexample :
    tied_batch.length = 17 ∧ tied_batch.map score = List.replicate 17 15 ∧
      (rank_results std_sort tied_batch).map (fun e => e.G) =
        [8, 16, 15, 14, 13, 12, 11, 10, 9, 0, 7, 6, 5, 4, 3, 2, 1] ∧
      (rank_results std_sort (rank_results std_sort tied_batch)).map (fun e => e.G) =
        [9, 1, 2, 3, 4, 5, 6, 7, 0, 8, 10, 11, 12, 13, 14, 15, 16] ∧
      rank_results std_sort (rank_results std_sort tied_batch) ≠
        rank_results std_sort tied_batch := by
  have h1 : (rank_results std_sort tied_batch).map (fun e => e.G) =
      [8, 16, 15, 14, 13, 12, 11, 10, 9, 0, 7, 6, 5, 4, 3, 2, 1] := by decide!
  have h2 : (rank_results std_sort (rank_results std_sort tied_batch)).map (fun e => e.G) =
      [9, 1, 2, 3, 4, 5, 6, 7, 0, 8, 10, 11, 12, 13, 14, 15, 16] := by decide!
  refine ⟨by decide, by decide!, h1, h2, ?_⟩
  intro heq
  rw [heq, h1] at h2
  exact absurd h2 (by decide)

/-- C9 (amended): when `std::sort` meets its contract, ranking an already-ranked batch again
yields a permutation of it with the same sequence of scores, and exactly the same sequence
whenever the scores of the batch are pairwise distinct. -/
theorem rank_results_twice {α : Type} [LinearOrderedField α]
    (sort : (AvalancheStatistics α → AvalancheStatistics α → Bool) →
      List (AvalancheStatistics α) → List (AvalancheStatistics α))
    (hsort : StdSortContract sort) (results : List (AvalancheStatistics α)) :
    (rank_results sort (rank_results sort results)).Perm (rank_results sort results) ∧
      (rank_results sort (rank_results sort results)).map score =
        (rank_results sort results).map score ∧
      ((results.map score).Nodup →
        rank_results sort (rank_results sort results) = rank_results sort results) := by
  obtain ⟨hp1, hs1⟩ := rank_results_perm_sorted sort hsort results
  obtain ⟨hp2, hs2⟩ := rank_results_perm_sorted sort hsort (rank_results sort results)
  refine ⟨hp2, ?_, ?_⟩
  · refine List.eq_of_perm_of_sorted (r := fun x y : α => x ≤ y) (hp2.map score) ?_ ?_
    · exact List.pairwise_map.mpr hs2
    · exact List.pairwise_map.mpr hs1
  · intro hd
    have hd1 : ((rank_results sort results).map score).Nodup := (hp1.map score).nodup_iff.mpr hd
    exact sorted_by_score_unique _ _ hp2 hs2 hs1 ((hp2.map score).nodup_iff.mpr hd1)

/-- Witness of `rank_results_twice`: insertion sort on a batch of three results with pairwise
distinct scores. -/
theorem rank_results_twice_witness :
    StdSortContract
        (insertion_sort : (AvalancheStatistics ℚ → AvalancheStatistics ℚ → Bool) → _ → _) ∧
      ([example_result 3 33 2 1, example_result 5 32 1 0, example_result 7 30 1 0].map
        score).Nodup ∧
      ((rank_results insertion_sort (rank_results insertion_sort
          [example_result 3 33 2 1, example_result 5 32 1 0, example_result 7 30 1 0])).Perm
        (rank_results insertion_sort
          [example_result 3 33 2 1, example_result 5 32 1 0, example_result 7 30 1 0]) ∧
      (rank_results insertion_sort (rank_results insertion_sort
          [example_result 3 33 2 1, example_result 5 32 1 0, example_result 7 30 1 0])).map score =
        (rank_results insertion_sort
          [example_result 3 33 2 1, example_result 5 32 1 0, example_result 7 30 1 0]).map score ∧
      (([example_result 3 33 2 1, example_result 5 32 1 0, example_result 7 30 1 0].map
          score).Nodup →
        rank_results insertion_sort (rank_results insertion_sort
          [example_result 3 33 2 1, example_result 5 32 1 0, example_result 7 30 1 0]) =
        rank_results insertion_sort
          [example_result 3 33 2 1, example_result 5 32 1 0, example_result 7 30 1 0])) :=
  ⟨insertion_sort_contract, by simp [score, example_result]; norm_num,
    rank_results_twice insertion_sort insertion_sort_contract _⟩

/-! ## C10: independence of the arrival order -/

/-- C10: when `std::sort` meets its contract and the scores of a batch are pairwise distinct,
ranking the batch and ranking any permutation of it yield the same sequence. -/
theorem rank_results_arrival_order {α : Type} [LinearOrderedField α]
    (sort : (AvalancheStatistics α → AvalancheStatistics α → Bool) →
      List (AvalancheStatistics α) → List (AvalancheStatistics α))
    (hsort : StdSortContract sort) (results arrived : List (AvalancheStatistics α))
    (hperm : arrived.Perm results) (hd : (results.map score).Nodup) :
    rank_results sort arrived = rank_results sort results := by
  obtain ⟨hp1, hs1⟩ := rank_results_perm_sorted sort hsort results
  obtain ⟨hp2, hs2⟩ := rank_results_perm_sorted sort hsort arrived
  have hp : (rank_results sort arrived).Perm (rank_results sort results) :=
    hp2.trans (hperm.trans hp1.symm)
  have hd2 : ((rank_results sort arrived).map score).Nodup :=
    ((hp2.trans hperm).map score).nodup_iff.mpr hd
  exact sorted_by_score_unique _ _ hp hs2 hs1 hd2

/-- Witness of `rank_results_arrival_order`: a batch of three results and its reversal. -/
theorem rank_results_arrival_order_witness :
    StdSortContract
        (insertion_sort : (AvalancheStatistics ℚ → AvalancheStatistics ℚ → Bool) → _ → _) ∧
      [example_result 7 30 1 0, example_result 5 32 1 0, example_result 3 33 2 1].Perm
        [example_result 3 33 2 1, example_result 5 32 1 0, example_result 7 30 1 0] ∧
      ([example_result 3 33 2 1, example_result 5 32 1 0, example_result 7 30 1 0].map
        score).Nodup ∧
      rank_results insertion_sort
          [example_result 7 30 1 0, example_result 5 32 1 0, example_result 3 33 2 1] =
        rank_results insertion_sort
          [example_result 3 33 2 1, example_result 5 32 1 0, example_result 7 30 1 0] :=
  have hperm : [example_result 7 30 1 0, example_result 5 32 1 0, example_result 3 33 2 1].Perm
      [example_result 3 33 2 1, example_result 5 32 1 0, example_result 7 30 1 0] :=
    List.reverse_perm [example_result 3 33 2 1, example_result 5 32 1 0, example_result 7 30 1 0]
  have hd : ([example_result 3 33 2 1, example_result 5 32 1 0, example_result 7 30 1 0].map
      score).Nodup := by
    simp [score, example_result]; norm_num
  ⟨insertion_sort_contract, hperm, hd,
    rank_results_arrival_order insertion_sort insertion_sort_contract _ _ hperm hd⟩

/-! ## Further lemmas for the evaluator, the renderer, the parser and the parallel loop -/

theorem histogram_count_eq_zero_of_lt (h : Histogram) (k : Int) (hk : ∀ e ∈ h, k < e.1) :
    histogram_count h k = 0 := by
  induction h with
  | nil => rfl
  | cons a t ih =>
    obtain ⟨k', c⟩ := a
    have h1 : k < k' := hk (k', c) (List.mem_cons_self _ _)
    simp only [histogram_count]
    rw [if_neg (ne_of_lt h1)]
    exact ih (fun e he => hk e (List.mem_cons_of_mem _ he))

theorem histogram_incr_count (h : Histogram) (k j : Int)
    (hs : h.Pairwise (fun a b => a.1 < b.1))
    (hb : ∀ e ∈ h, 0 ≤ e.2 ∧ e.2 < 2 ^ 31 - 1) :
    histogram_count (histogram_incr h k) j = histogram_count h j + if j = k then 1 else 0 := by
  induction h with
  | nil =>
    simp only [histogram_incr, histogram_count]
    split_ifs <;> simp [wrap_int]
  | cons a t ih =>
    obtain ⟨k', c⟩ := a
    have hc := hb (k', c) (List.mem_cons_self _ _)
    rw [List.pairwise_cons] at hs
    have iht := ih hs.2 (fun e he => hb e (List.mem_cons_of_mem _ he))
    by_cases hj : j = k
    · subst hj
      rw [if_pos rfl] at iht ⊢
      simp only [histogram_incr]
      split_ifs with h1 h2
      · have h0 : histogram_count ((k', c) :: t) j = 0 := by
          apply histogram_count_eq_zero_of_lt
          intro e he
          rcases List.mem_cons.mp he with rfl | he'
          · exact h1
          · exact lt_trans h1 (hs.1 e he')
        rw [h0]
        simp [histogram_count, wrap_int]
      · subst h2
        rw [wrap_int_of_range _ (by simp at hc ⊢; omega) (by simp at hc ⊢; omega)]
        simp [histogram_count]
      · simp only [histogram_count, if_neg h2, iht]
    · rw [if_neg hj, add_zero] at iht ⊢
      simp only [histogram_incr]
      split_ifs with h1 h2
      · simp only [histogram_count, if_neg hj]
      · subst h2
        simp only [histogram_count, if_neg hj]
      · simp only [histogram_count, iht]

theorem histogram_count_bounds (h : Histogram) (k : Int) (hpos : ∀ e ∈ h, 0 ≤ e.2) :
    0 ≤ histogram_count h k ∧ histogram_count h k ≤ histogram_total h := by
  induction h with
  | nil => simp [histogram_count, histogram_total]
  | cons a t ih =>
    obtain ⟨k', c⟩ := a
    have hc : 0 ≤ c := hpos (k', c) (List.mem_cons_self _ _)
    have iht := ih (fun e he => hpos e (List.mem_cons_of_mem _ he))
    have hcons : histogram_total ((k', c) :: t) = c + histogram_total t := by
      simp [histogram_total]
    simp only [histogram_count]
    rw [hcons]
    split_ifs
    · constructor <;> omega
    · constructor <;> omega

/-- The bound on the stored counts that keeps `histogram[k]++` within the range of an `int`. -/
theorem avalanche_loop_counts_bounded (P G : Nat) (rng : Nat → Nat) (n : Nat)
    (hn : n < 2 ^ 31 - 1) :
    ∀ e ∈ (avalanche_loop P G rng n).histogram, 0 ≤ e.2 ∧ e.2 < 2 ^ 31 - 1 := by
  obtain ⟨hwf, htot, -⟩ := avalanche_loop_histogram P G rng n (by omega)
  intro e he
  have h1 := (hwf.2 e he).2
  have h2 := histogram_count_le_total _ (fun x hx => le_of_lt (hwf.2 x hx).2) e he
  rw [htot] at h2
  have : (n : Int) + 1 < 2 ^ 31 := by exact_mod_cast (by omega : n + 1 < 2 ^ 31)
  constructor <;> omega

/-- The zero-change part of the loop invariant: the counter equals the count under key 0. -/
theorem avalanche_loop_zero_count (P G : Nat) (rng : Nat → Nat) (n : Nat) (hn : n < 2 ^ 31) :
    (avalanche_loop P G rng n).zero_bits_count =
      histogram_count (avalanche_loop P G rng n).histogram 0 := by
  induction n with
  | zero => rfl
  | succ n ih =>
    have ihn := ih (by omega)
    obtain ⟨hwf, htot, -⟩ := avalanche_loop_histogram P G rng n (by omega)
    have hb := avalanche_loop_counts_bounded P G rng n (by omega)
    have hcb := histogram_count_bounds (avalanche_loop P G rng n).histogram 0
      (fun e he => (hb e he).1)
    rw [htot] at hcb
    have hcount := histogram_incr_count (avalanche_loop P G rng n).histogram
      (bitsChanged P G rng n) 0 hwf.1 hb
    show (if bitsChanged P G rng n = 0 then wrap_int (_ + 1) else _) =
      histogram_count (histogram_incr _ _) 0
    rw [hcount, ihn]
    have hn' : (n : Int) + 1 < 2 ^ 31 := by exact_mod_cast hn
    by_cases hz : bitsChanged P G rng n = 0
    · rw [if_pos hz, if_pos hz.symm]
      apply wrap_int_of_range <;> omega
    · rw [if_neg hz, if_neg (fun h => hz h.symm)]
      simp

theorem histogram_incr_eq_exact (h : Histogram) (k : Int)
    (hb : ∀ e ∈ h, 0 ≤ e.2 ∧ e.2 < 2 ^ 31 - 1) :
    histogram_incr h k = histogram_incr_exact h k := by
  induction h with
  | nil => simp [histogram_incr, histogram_incr_exact, wrap_int]
  | cons a t ih =>
    obtain ⟨k', c⟩ := a
    have hc := hb (k', c) (List.mem_cons_self _ _)
    simp only [histogram_incr, histogram_incr_exact]
    split_ifs with h1 h2
    · simp [wrap_int]
    · rw [wrap_int_of_range _ (by simp at hc ⊢; omega) (by simp at hc ⊢; omega)]
    · rw [ih (fun e he => hb e (List.mem_cons_of_mem _ he))]

/-- While `64 * n` is below `2^31` the loop with 32-bit wraparound computes what the loop in
exact integer arithmetic computes. -/
theorem avalanche_loop_eq_exact (P G : Nat) (rng : Nat → Nat) (n : Nat) (hn : 64 * n < 2 ^ 31) :
    avalanche_loop P G rng n = avalanche_loop_exact P G rng n := by
  induction n with
  | zero => rfl
  | succ n ih =>
    have ihn := ih (by omega)
    obtain ⟨hwf, htot, -⟩ := avalanche_loop_histogram P G rng n (by omega)
    have hb := avalanche_loop_counts_bounded P G rng n (by omega)
    have hsum := avalanche_loop_sum P G rng n (by omega)
    have hzero := avalanche_loop_zero_count P G rng n (by omega)
    have hcb := histogram_count_bounds (avalanche_loop P G rng n).histogram 0
      (fun e he => (hb e he).1)
    have hw := histogram_weighted_bounds _ hwf.2
    rw [htot] at hcb hw
    have hbits := bitsChanged_range P G rng n
    have hn' : (64 : Int) * ((n : Int) + 1) < 2 ^ 31 := by exact_mod_cast hn
    show (avalanche_loop P G rng n).step (bitsChanged P G rng n) =
      (avalanche_loop_exact P G rng n).step_exact (bitsChanged P G rng n)
    rw [← ihn]
    unfold LoopState.step LoopState.step_exact
    rw [histogram_incr_eq_exact _ _ hb,
      wrap_int_of_range ((avalanche_loop P G rng n).zero_bits_count + 1) (by omega) (by omega),
      wrap_int_of_range ((avalanche_loop P G rng n).sumBitChanges + bitsChanged P G rng n)
        (by omega) (by omega)]

/-- A value below `2^L` has at most `L` set bits. -/
theorem popcount_le_of_lt_two_pow (x L : Nat) (hx : x < 2 ^ L) : popcount x ≤ L := by
  unfold popcount
  have hsub : ((List.range 64).filter (fun i => x.testBit i)).toFinset ⊆ Finset.range L := by
    intro i hi
    rw [List.mem_toFinset, List.mem_filter] at hi
    rw [Finset.mem_range]
    by_contra hge
    have hlt : x < 2 ^ i := lt_of_lt_of_le hx (Nat.pow_le_pow_right (by decide) (not_lt.mp hge))
    rw [Nat.testBit_lt_two_pow hlt] at hi
    exact absurd hi.2 (by decide)
  have hnd : ((List.range 64).filter (fun i => x.testBit i)).Nodup :=
    (List.nodup_range 64).filter _
  rw [← List.toFinset_card_of_nodup hnd]
  exact (Finset.card_le_card hsub).trans (by simp)

theorem mix_lt (P G x : Nat) (hP : 1 ≤ P) : mix P G x < P := Nat.mod_lt _ (by omega)

/-- Two values below `P` differ in at most as many bits as `P - 1` has binary digits. -/
theorem hamming_distance_le_size (P a b : Nat) (ha : a < P) (hb : b < P) :
    hamming_distance a b ≤ (Nat.size (P - 1) : Int) := by
  have hlt : ∀ y, y < P → y < 2 ^ Nat.size (P - 1) := by
    intro y hy
    exact lt_of_le_of_lt (by omega) (Nat.lt_size_self (P - 1))
  unfold hamming_distance
  exact_mod_cast popcount_le_of_lt_two_pow _ _ (Nat.xor_lt_two_pow (hlt a ha) (hlt b hb))

theorem bitsChanged_le_size (P G : Nat) (rng : Nat → Nat) (i : Nat) (hP : 1 ≤ P) :
    bitsChanged P G rng i ≤ (Nat.size (P - 1) : Int) :=
  hamming_distance_le_size P _ _ (mix_lt P G _ hP) (mix_lt P G _ hP)

theorem size_example : Nat.size (1000000007 - 1) = 30 := by
  apply le_antisymm
  · exact Nat.size_le.mpr (by norm_num)
  · exact Nat.lt_size.mpr (by norm_num)


theorem histogram_count_eq_zero_of_not_mem (h : Histogram) (k : Int)
    (hk : k ∉ h.map (fun e => e.1)) : histogram_count h k = 0 := by
  induction h with
  | nil => rfl
  | cons a t ih =>
    obtain ⟨k', c⟩ := a
    simp only [List.map_cons, List.mem_cons, not_or] at hk
    simp only [histogram_count]
    rw [if_neg hk.1]
    exact ih hk.2

theorem histogram_weighted_le (h : Histogram) (L : Int)
    (hL : ∀ e ∈ h, e.1 ≤ L ∧ 0 ≤ e.2) : histogram_weighted h ≤ L * histogram_total h := by
  induction h with
  | nil => simp [histogram_weighted, histogram_total]
  | cons a t ih =>
    have ha := hL a (List.mem_cons_self _ _)
    have := ih (fun e he => hL e (List.mem_cons_of_mem _ he))
    simp only [histogram_weighted, histogram_total, List.map_cons, List.sum_cons] at this ⊢
    have h2 : a.1 * a.2 ≤ L * a.2 := mul_le_mul_of_nonneg_right ha.1 ha.2
    linarith


/-- Flipping bit `b` of `x` adds `2^b` to `x` or subtracts `2^b` from it. -/
theorem xor_two_pow_cases (b x : Nat) :
    x ^^^ 2 ^ b = x + 2 ^ b ∨ (2 ^ b ≤ x ∧ x ^^^ 2 ^ b = x - 2 ^ b) := by
  induction b generalizing x with
  | zero =>
    have h1 : (x ^^^ 2 ^ 0) / 2 = x / 2 := by
      rw [Nat.xor_div_two]; simp
    have h2 : (x ^^^ 2 ^ 0) % 2 = (x + 2 ^ 0) % 2 := Nat.xor_mod_two_eq
    simp only [pow_zero] at h1 h2 ⊢
    omega
  | succ b ih =>
    have h1 : (x ^^^ 2 ^ (b + 1)) / 2 = x / 2 ^^^ 2 ^ b := by
      rw [Nat.xor_div_two, pow_succ, Nat.mul_div_cancel _ (by decide : 0 < 2)]
    have h2 : (x ^^^ 2 ^ (b + 1)) % 2 = (x + 2 ^ (b + 1)) % 2 := Nat.xor_mod_two_eq
    have h3 : 2 ^ (b + 1) = 2 * 2 ^ b := by rw [pow_succ, mul_comm]
    rcases ih (x / 2) with h | ⟨hle, h⟩
    · left; rw [h] at h1; omega
    · right; rw [h] at h1; omega

theorem popcount_eq_zero (x : Nat) (hx : x < 2 ^ 64) (h : popcount x = 0) : x = 0 := by
  unfold popcount at h
  have hnil := List.length_eq_zero.mp h
  have hbit : ∀ i, x.testBit i = false := by
    intro i
    by_cases hi : i < 64
    · by_contra hne
      have hmem : i ∈ (List.range 64).filter (fun i => x.testBit i) := by
        rw [List.mem_filter]
        exact ⟨List.mem_range.mpr hi, by simpa using hne⟩
      rw [hnil] at hmem
      cases hmem
    · exact Nat.testBit_lt_two_pow
        (lt_of_lt_of_le hx (Nat.pow_le_pow_right (by decide) (not_lt.mp hi)))
  have := Nat.lt_pow_two_of_testBit (n := 0) x (fun i _ => hbit i)
  omega

theorem sample_state_lt (u : Nat) : sample_state u < 2 ^ 64 := by
  have ha : dist_a = 2 ^ 63 := by decide
  have hb : dist_b = 2 ^ 64 - 1 := by decide
  unfold sample_state uniform_int_distribution
  rw [ha, hb]
  have := Nat.mod_lt u (show 0 < 2 ^ 64 - 1 - 2 ^ 63 + 1 by norm_num)
  omega

theorem perturb_lt (state r : Nat) (hs : state < 2 ^ 64) : perturb state r < 2 ^ 64 := by
  have hk : bit_index r < 64 := Nat.mod_lt _ (by decide)
  unfold perturb
  rw [one_shiftLeft_bit_index]
  exact Nat.xor_lt_two_pow hs (Nat.pow_lt_pow_right (by decide) hk)

/-- With `G = 1` and an odd modulus above 1 a state and its twin are mapped to different
values. -/
theorem mix_one_ne (P state r : Nat) (hP : 1 < P) (hodd : P % 2 = 1) (hs : state < 2 ^ 64) :
    mix P 1 state ≠ mix P 1 (perturb state r) := by
  have hm := perturb_lt state r hs
  have hcop : Nat.Coprime P (2 ^ bit_index r) :=
    Nat.Coprime.pow_right _ ((Nat.coprime_comm.mp (Nat.coprime_two_left.mpr
      (Nat.odd_iff.mpr hodd))))
  have hnd : ¬ P ∣ 2 ^ bit_index r := by
    intro hd
    have := Nat.Coprime.eq_one_of_dvd hcop hd
    omega
  have hp : perturb state r = state ^^^ 2 ^ bit_index r := by
    unfold perturb; rw [one_shiftLeft_bit_index]
  unfold mix UINT64_SIZE
  rw [Nat.mul_one, Nat.mul_one, Nat.mod_eq_of_lt hs, Nat.mod_eq_of_lt hm, hp]
  intro heq
  rcases xor_two_pow_cases (bit_index r) state with h | ⟨hle, h⟩
  · rw [h] at heq
    apply hnd
    have := (Nat.modEq_iff_dvd' (Nat.le_add_right state (2 ^ bit_index r))).mp heq
    rwa [Nat.add_sub_cancel_left] at this
  · rw [h] at heq
    apply hnd
    have := (Nat.modEq_iff_dvd' (Nat.sub_le state (2 ^ bit_index r))).mp heq.symm
    rwa [Nat.sub_sub_self hle] at this

theorem bitsChanged_one_pos (P : Nat) (rng : Nat → Nat) (i : Nat) (hP : 1 < P)
    (hodd : P % 2 = 1) : 1 ≤ bitsChanged P 1 rng i := by
  have hs := sample_state_lt (rng (2 * i))
  have hne := mix_one_ne P (sample_state (rng (2 * i))) (rng (2 * i + 1)) hP hodd hs
  have h0 := (bitsChanged_range P 1 rng i).1
  have hnz : bitsChanged P 1 rng i ≠ 0 := by
    intro hz
    apply hne
    have hpc : popcount (mix P 1 (sample_state (rng (2 * i))) ^^^
        mix P 1 (perturb (sample_state (rng (2 * i))) (rng (2 * i + 1)))) = 0 := by
      have : (popcount (mix P 1 (sample_state (rng (2 * i))) ^^^
        mix P 1 (perturb (sample_state (rng (2 * i))) (rng (2 * i + 1)))) : Int) = 0 := hz
      exact_mod_cast this
    have hlt : ∀ y, mix P 1 y < 2 ^ 64 := by
      intro y
      unfold mix UINT64_SIZE
      exact lt_of_le_of_lt (Nat.mod_le _ _) (Nat.mod_lt _ (by norm_num))
    exact Nat.xor_eq_zero.mp (popcount_eq_zero _ (Nat.xor_lt_two_pow (hlt _) (hlt _)) hpc)
  omega

/-- The running sum of the exact loop when every trial has the same change count. -/
theorem avalanche_loop_exact_sum_const (P G : Nat) (rng : Nat → Nat) (k : Int)
    (hk : ∀ i, bitsChanged P G rng i = k) (n : Nat) :
    (avalanche_loop_exact P G rng n).sumBitChanges = k * n := by
  induction n with
  | zero => simp [avalanche_loop_exact, LoopState.init]
  | succ n ih =>
    show (avalanche_loop_exact P G rng n).sumBitChanges + bitsChanged P G rng n = _
    rw [ih, hk]; push_cast; ring

theorem append_markers_eq (ss : String) (k : Nat) :
    append_markers ss k = ss ++ String.mk (List.replicate k '#') := by
  induction k generalizing ss with
  | zero =>
    show ss = ss ++ ""
    rw [String.append_empty]
  | succ k ih =>
    show append_markers (ss ++ "#") k = _
    rw [ih, String.append_assoc]
    congr 1

theorem barLength_eq (count trial_count : Nat) :
    barLength (count : Int) (trial_count : Int) = ((count / (trial_count / 500) : Nat) : Int) := by
  unfold barLength
  have h500 : Int.tdiv (trial_count : Int) 500 = ((trial_count / 500 : Nat) : Int) := by
    rw [Int.tdiv_eq_ediv (Int.natCast_nonneg _) (by norm_num)]
    norm_cast
  rw [h500, Int.tdiv_eq_ediv (Int.natCast_nonneg _) (Int.natCast_nonneg _)]
  norm_cast

theorem append_entry_eq (trial_count : Nat) (ss : String) (entry : Int × Int)
    (hc : 0 ≤ entry.2) :
    append_entry (trial_count : Int) ss entry =
      ss ++ histogram_line entry.1 entry.2.toNat trial_count := by
  obtain ⟨key, c⟩ := entry
  obtain ⟨count, rfl⟩ := Int.eq_ofNat_of_zero_le hc
  unfold append_entry histogram_line
  simp only [append_markers_eq, Int.toNat_ofNat]
  rw [barLength_eq]
  simp only [Int.toNat_ofNat, Nat.cast_pos]
  have hstr : toString ((count : Nat) : Int) = toString count := rfl
  rw [hstr]
  split_ifs <;> simp only [String.append_assoc, String.append_empty]

theorem foldl_append_entry (trial_count : Nat) (h : Histogram) (hc : ∀ e ∈ h, 0 ≤ e.2)
    (ss : String) :
    h.foldl (append_entry (trial_count : Int)) ss = ss ++ histogram_report h trial_count := by
  induction h generalizing ss with
  | nil =>
    show ss = ss ++ ""
    rw [String.append_empty]
  | cons e t ih =>
    rw [List.foldl_cons, ih (fun x hx => hc x (List.mem_cons_of_mem _ hx)),
      append_entry_eq trial_count ss e (hc e (List.mem_cons_self _ _)), String.append_assoc]
    rfl

theorem parse_args_cons (arg : String) (rest : List String) (st : ArgState) :
    parse_args (arg :: rest) st =
      if arg = "-h" then ParseOutcome.exit 0
      else if arg = "-p" then
        match rest with
        | [] => ParseOutcome.exit 1
        | value :: rest' =>
          if strtoull value = 0 then ParseOutcome.exit 1
          else parse_args rest'
            { st with prime_input := strtoull value, single_prime_mode := true }
      else if arg = "--p-samples" then
        match rest with
        | [] => ParseOutcome.exit 1
        | value :: rest' =>
          if atoi value ≤ 0 then ParseOutcome.exit 1
          else parse_args rest' { st with p_samples := atoi value }
      else if not_dash arg && !st.single_prime_mode then
        if atoi arg ≤ 0 then ParseOutcome.exit 1
        else parse_args rest { st with num_samples := atoi arg }
      else parse_args rest st := by
  exact (parse_args.eq_def (arg :: rest) st).trans (by cases rest <;> rfl)

/-- Arguments that the loop has passed without a `return` do not change what the loop does with
the arguments that follow, apart from the variables they have set. -/
theorem parse_args_append (pre rest : List String) (st st' : ArgState)
    (hpre : parse_args pre st = ParseOutcome.proceed st') :
    parse_args (pre ++ rest) st = parse_args rest st' := by
  generalize hlen : pre.length = n
  induction n using Nat.strong_induction_on generalizing pre st with
  | _ n ih =>
    match pre, hlen, hpre with
    | [], _, hpre =>
      have hp : st = st' := by
        have : ParseOutcome.proceed st = ParseOutcome.proceed st' := hpre
        exact ParseOutcome.proceed.inj this
      rw [hp]; rfl
    | arg :: tail, hlen, hpre =>
      rw [parse_args_cons] at hpre
      rw [List.cons_append, parse_args_cons]
      by_cases h1 : arg = "-h"
      · rw [if_pos h1] at hpre; cases hpre
      · rw [if_neg h1] at hpre ⊢
        by_cases h2 : arg = "-p"
        · rw [if_pos h2] at hpre ⊢
          match tail, hlen, hpre with
          | [], _, hpre => cases hpre
          | value :: tail', hlen, hpre =>
            simp only [List.cons_append] at hpre ⊢
            by_cases h3 : strtoull value = 0
            · rw [if_pos h3] at hpre; cases hpre
            · rw [if_neg h3] at hpre ⊢
              exact ih tail'.length (by simp at hlen; omega) tail' _ hpre rfl
        · rw [if_neg h2] at hpre ⊢
          by_cases h4 : arg = "--p-samples"
          · rw [if_pos h4] at hpre ⊢
            match tail, hlen, hpre with
            | [], _, hpre => cases hpre
            | value :: tail', hlen, hpre =>
              simp only [List.cons_append] at hpre ⊢
              by_cases h5 : atoi value ≤ 0
              · rw [if_pos h5] at hpre; cases hpre
              · rw [if_neg h5] at hpre ⊢
                exact ih tail'.length (by simp at hlen; omega) tail' _ hpre rfl
          · rw [if_neg h4] at hpre ⊢
            by_cases h6 : (not_dash arg && !st.single_prime_mode) = true
            · rw [if_pos h6] at hpre ⊢
              by_cases h7 : atoi arg ≤ 0
              · rw [if_pos h7] at hpre; cases hpre
              · rw [if_neg h7] at hpre ⊢
                exact ih tail.length (by simp at hlen; omega) tail _ hpre rfl
            · rw [if_neg h6] at hpre ⊢
              exact ih tail.length (by simp at hlen; omega) tail _ hpre rfl

/-- After the loop, fixed-prime mode comes with a prime that is not 0. -/
theorem parse_args_prime_ne_zero (args : List String) (st st' : ArgState)
    (hst : st.single_prime_mode = true → st.prime_input ≠ 0)
    (h : parse_args args st = ParseOutcome.proceed st') :
    st'.single_prime_mode = true → st'.prime_input ≠ 0 := by
  generalize hlen : args.length = n
  induction n using Nat.strong_induction_on generalizing args st with
  | _ n ih =>
    match args, hlen, h with
    | [], _, h =>
      have hp : st = st' := by
        have : ParseOutcome.proceed st = ParseOutcome.proceed st' := h
        exact ParseOutcome.proceed.inj this
      rw [← hp]; exact hst
    | arg :: tail, hlen, h =>
      rw [parse_args_cons] at h
      by_cases h1 : arg = "-h"
      · rw [if_pos h1] at h; cases h
      · rw [if_neg h1] at h
        by_cases h2 : arg = "-p"
        · rw [if_pos h2] at h
          match tail, hlen, h with
          | [], _, h => cases h
          | value :: tail', hlen, h =>
            simp only at h
            by_cases h3 : strtoull value = 0
            · rw [if_pos h3] at h; cases h
            · rw [if_neg h3] at h
              exact ih tail'.length (by simp at hlen; omega) tail' _ (fun _ => h3) h rfl
        · rw [if_neg h2] at h
          by_cases h4 : arg = "--p-samples"
          · rw [if_pos h4] at h
            match tail, hlen, h with
            | [], _, h => cases h
            | value :: tail', hlen, h =>
              simp only at h
              by_cases h5 : atoi value ≤ 0
              · rw [if_pos h5] at h; cases h
              · rw [if_neg h5] at h
                exact ih tail'.length (by simp at hlen; omega) tail' { st with p_samples := atoi value }
                  hst h rfl
          · rw [if_neg h4] at h
            by_cases h6 : (not_dash arg && !st.single_prime_mode) = true
            · rw [if_pos h6] at h
              by_cases h7 : atoi arg ≤ 0
              · rw [if_pos h7] at h; cases h
              · rw [if_neg h7] at h
                exact ih tail.length (by simp at hlen; omega) tail { st with num_samples := atoi arg }
                  hst h rfl
            · rw [if_neg h6] at h
              exact ih tail.length (by simp at hlen; omega) tail _ hst h rfl

theorem main_of_exit {α : Type} [LinearOrderedField α] (sqrt : α → α)
    (sort : (AvalancheStatistics α → AvalancheStatistics α → Bool) →
      List (AvalancheStatistics α) → List (AvalancheStatistics α))
    (mu : MathUtils) (rngs : Nat → Nat → Nat) (schedule : List Nat) (args : List String)
    (code : Nat) (h : parse_args args ArgState.default = ParseOutcome.exit code) :
    main sqrt sort mu rngs schedule args = some (MainOutcome.exited code) := by
  unfold main
  rw [h]


/-! ## Lemmas on the parallel loop -/

theorem critical_free_iff {X : Type} (n : Nat) (s : RegionState X) :
    critical_free n s = true ↔ ∀ j, j < n → s.phase j ≠ Phase.inside := by
  unfold critical_free
  rw [List.all_eq_true]
  constructor
  · intro h j hj
    have := h j (List.mem_range.mpr hj)
    simpa using this
  · intro h j hj
    have := h j (List.mem_range.mp hj)
    simpa using this

theorem all_finished_iff {X : Type} (n : Nat) (s : RegionState X) :
    all_finished n s = true ↔ ∀ j, j < n → s.phase j = Phase.finished := by
  unfold all_finished
  rw [List.all_eq_true]
  constructor
  · intro h j hj
    have := h j (List.mem_range.mpr hj)
    simpa using this
  · intro h j hj
    have := h j (List.mem_range.mp hj)
    simpa using this

/-- The three kinds of step: an evaluation outside the critical block, the entry into the free
block, and the append that ends the stay in the block. -/
theorem region_step_cases {X : Type} (n : Nat) (task : Nat → Option X) (s s' : RegionState X)
    (i : Nat) (h : region_step n task s i = some s') :
    i < n ∧
      ((s.phase i = Phase.pending ∧ (∃ x, task i = some x) ∧
          s' = { s with phase := Function.update s.phase i Phase.waiting }) ∨
        (s.phase i = Phase.waiting ∧ critical_free n s = true ∧
          s' = { s with phase := Function.update s.phase i Phase.inside }) ∨
        (s.phase i = Phase.inside ∧ ∃ x, task i = some x ∧
          s' = { phase := Function.update s.phase i Phase.finished,
                 results := s.results ++ [x] })) := by
  unfold region_step at h
  by_cases hi : i < n
  · rw [if_pos hi] at h
    refine ⟨hi, ?_⟩
    cases hph : s.phase i with
    | pending =>
      rw [hph] at h
      cases ht : task i with
      | none => rw [ht] at h; cases h
      | some x =>
        rw [ht] at h
        left
        exact ⟨rfl, ⟨x, rfl⟩, (Option.some.inj h).symm⟩
    | waiting =>
      rw [hph] at h
      by_cases hc : critical_free n s = true
      · simp only [hc, if_true] at h
        right; left
        exact ⟨rfl, hc, (Option.some.inj h).symm⟩
      · simp only [hc] at h
        cases h
    | inside =>
      rw [hph] at h
      cases ht : task i with
      | none => rw [ht] at h; cases h
      | some x =>
        rw [ht] at h
        right; right
        exact ⟨rfl, x, rfl, (Option.some.inj h).symm⟩
    | finished =>
      rw [hph] at h
      cases h
  · rw [if_neg hi] at h
    cases h

theorem region_inv_init {X : Type} (n : Nat) (task : Nat → Option X) :
    RegionInv n task (RegionState.init X) := by
  refine ⟨?_, [], rfl, ?_⟩
  · intro i j _ _ h
    cases h
  · intro i
    simp [RegionState.init]

theorem region_inv_step {X : Type} (n : Nat) (task : Nat → Option X) (s s' : RegionState X)
    (i : Nat) (hinv : RegionInv n task s) (h : region_step n task s i = some s') :
    RegionInv n task s' := by
  obtain ⟨hmx, done, hres, hcount⟩ := hinv
  obtain ⟨hi, hcase⟩ := region_step_cases n task s s' i h
  rcases hcase with ⟨hph, -, rfl⟩ | ⟨hph, hfree, rfl⟩ | ⟨hph, x, hx, rfl⟩
  · -- evaluation
    refine ⟨?_, done, hres, ?_⟩
    · intro a b ha hb h1 h2
      simp only [Function.update_apply] at h1 h2
      split_ifs at h1 h2
      exact hmx a b ha hb h1 h2
    · intro j
      rw [hcount j]
      simp only [Function.update_apply]
      by_cases hj : j = i
      · subst hj; simp [hph]
      · simp [hj]
  · -- entry into the critical block
    rw [critical_free_iff] at hfree
    refine ⟨?_, done, hres, ?_⟩
    · intro a b ha hb h1 h2
      simp only [Function.update_apply] at h1 h2
      by_cases hai : a = i
      · by_cases hbi : b = i
        · rw [hai, hbi]
        · rw [if_neg hbi] at h2
          exact absurd h2 (hfree b hb)
      · rw [if_neg hai] at h1
        exact absurd h1 (hfree a ha)
    · intro j
      rw [hcount j]
      simp only [Function.update_apply]
      by_cases hj : j = i
      · subst hj; simp [hph]
      · simp [hj]
  · -- append and exit
    refine ⟨?_, done ++ [i], ?_, ?_⟩
    · intro a b ha hb h1 h2
      simp only [Function.update_apply] at h1 h2
      split_ifs at h1 h2
      exact hmx a b ha hb h1 h2
    · simp only [List.map_append, List.map_cons, List.map_nil, hres, hx]
    · intro j
      rw [List.count_append, hcount j]
      simp only [Function.update_apply]
      by_cases hj : j = i
      · subst hj; simp [hph, hi]
      · have hji : ¬ i = j := fun h => hj h.symm
        simp [hj, hji]

theorem region_inv_run {X : Type} (n : Nat) (task : Nat → Option X) (schedule : List Nat)
    (s s' : RegionState X) (hinv : RegionInv n task s)
    (h : region_run n task schedule s = some s') : RegionInv n task s' := by
  induction schedule generalizing s with
  | nil =>
    have : s = s' := Option.some.inj h
    rw [← this]; exact hinv
  | cons i rest ih =>
    simp only [region_run] at h
    cases hstep : region_step n task s i with
    | none => rw [hstep] at h; cases h
    | some s1 =>
      rw [hstep] at h
      exact ih s1 (region_inv_step n task s s1 i hinv hstep) h

/-- Behind the barrier the vector is a rearrangement of the results of the `n` iterations. -/
theorem parallel_for_perm {X : Type} (n : Nat) (task : Nat → Option X) (schedule : List Nat)
    (results : List X) (h : parallel_for n task schedule = some results) :
    results.Perm ((List.range n).filterMap task) ∧ results.length = n := by
  unfold parallel_for at h
  cases hrun : region_run n task schedule (RegionState.init X) with
  | none => rw [hrun] at h; cases h
  | some s =>
    rw [hrun] at h
    by_cases hfin : all_finished n s = true
    · simp only [hfin, if_true] at h
      have hres : s.results = results := Option.some.inj h
      obtain ⟨-, done, hmap, hcount⟩ := region_inv_run n task schedule _ s
        (region_inv_init n task) hrun
      rw [all_finished_iff] at hfin
      have hperm : done.Perm (List.range n) := by
        rw [List.perm_iff_count]
        intro a
        rw [hcount a]
        by_cases ha : a < n
        · rw [if_pos ⟨ha, hfin a ha⟩]
          exact (List.count_eq_one_of_mem (List.nodup_range n) (List.mem_range.mpr ha)).symm
        · rw [if_neg (fun hh => ha hh.1)]
          exact (List.count_eq_zero_of_not_mem (fun hm => ha (List.mem_range.mp hm))).symm
      have hfm : done.filterMap task = s.results := by
        have h1 : (done.map task).filterMap id = (s.results.map some).filterMap id := by
          rw [hmap]
        rw [List.filterMap_map, List.filterMap_map] at h1
        simpa using h1
      rw [← hres]
      constructor
      · rw [← hfm]
        exact hperm.filterMap task
      · have hl : (s.results.map some).length = (done.map task).length := by rw [hmap]
        rw [List.length_map, List.length_map] at hl
        rw [hl, hperm.length_eq, List.length_range]
    · simp only [hfin] at h
      cases h

theorem region_run_append {X : Type} (n : Nat) (task : Nat → Option X) (l1 l2 : List Nat)
    (s : RegionState X) :
    region_run n task (l1 ++ l2) s = (region_run n task l1 s).bind (region_run n task l2) := by
  induction l1 generalizing s with
  | nil => rfl
  | cons i rest ih =>
    simp only [List.cons_append, region_run]
    cases region_step n task s i with
    | none => rfl
    | some s1 => exact ih s1

theorem sequential_schedule_succ (k : Nat) :
    sequential_schedule (k + 1) = sequential_schedule k ++ [k, k, k] := by
  simp [sequential_schedule, List.range_succ]

/-- The sequential schedule runs the first `k` iterations to their end. -/
theorem sequential_schedule_run {X : Type} (n : Nat) (task : Nat → Option X)
    (hsome : ∀ i, i < n → ∃ x, task i = some x) (k : Nat) (hk : k ≤ n) :
    ∃ s, region_run n task (sequential_schedule k) (RegionState.init X) = some s ∧
      ∀ i, s.phase i = if i < k then Phase.finished else Phase.pending := by
  induction k with
  | zero =>
    refine ⟨RegionState.init X, rfl, ?_⟩
    intro i
    simp [RegionState.init]
  | succ k ih =>
    obtain ⟨s, hrun, hphase⟩ := ih (by omega)
    obtain ⟨x, hx⟩ := hsome k (by omega)
    have hkn : k < n := by omega
    have hpk : s.phase k = Phase.pending := by rw [hphase k]; simp
    -- the evaluation
    have h1 : region_step n task s k =
        some (RegionState.mk (Function.update s.phase k Phase.waiting) s.results) := by
      simp only [region_step, if_pos hkn, hpk, hx]
    -- the entry into the critical block
    have hfree : critical_free n
        (RegionState.mk (Function.update s.phase k Phase.waiting) s.results) = true := by
      rw [critical_free_iff]
      intro j _
      simp only [Function.update_apply]
      split_ifs
      · decide
      · rw [hphase j]; split_ifs <;> decide
    have h2 : region_step n task
        (RegionState.mk (Function.update s.phase k Phase.waiting) s.results) k =
        some (RegionState.mk
          (Function.update (Function.update s.phase k Phase.waiting) k Phase.inside)
          s.results) := by
      simp only [region_step, if_pos hkn, Function.update_same, hfree, if_true]
    -- the append
    have h3 : region_step n task
        (RegionState.mk
          (Function.update (Function.update s.phase k Phase.waiting) k Phase.inside)
          s.results) k =
        some (RegionState.mk
          (Function.update (Function.update (Function.update s.phase k Phase.waiting) k
            Phase.inside) k Phase.finished)
          (s.results ++ [x])) := by
      simp only [region_step, if_pos hkn, Function.update_same, hx]
    refine ⟨RegionState.mk
      (Function.update (Function.update (Function.update s.phase k Phase.waiting) k
        Phase.inside) k Phase.finished)
      (s.results ++ [x]), ?_, ?_⟩
    · rw [sequential_schedule_succ, region_run_append, hrun]
      simp only [Option.bind, region_run, h1, h2, h3]
    · intro i
      simp only [Function.update_apply]
      by_cases hik : i = k
      · subst hik; simp
      · rw [if_neg hik, if_neg hik, if_neg hik, hphase i]
        have : i < k + 1 ↔ i < k := by omega
        simp only [this]

/-- When every evaluation returns, the sequential schedule passes the barrier. -/
theorem parallel_for_sequential {X : Type} (n : Nat) (task : Nat → Option X)
    (hsome : ∀ i, i < n → ∃ x, task i = some x) :
    ∃ results, parallel_for n task (sequential_schedule n) = some results := by
  obtain ⟨s, hrun, hphase⟩ := sequential_schedule_run n task hsome n (le_refl n)
  have hfin : all_finished n s = true := by
    rw [all_finished_iff]
    intro j hj
    rw [hphase j, if_pos hj]
  refine ⟨s.results, ?_⟩
  unfold parallel_for
  rw [hrun]
  simp only [hfin, if_true]

theorem avalanche_quality_fields {α : Type} [LinearOrderedField α] (sqrt : α → α) (P G : Nat)
    (rng : Nat → Nat) (r : AvalancheStatistics α) (h : avalanche_quality sqrt P G rng = some r) :
    r.P = P ∧ r.G = G := by
  unfold avalanche_quality avalanche_quality_with at h
  split_ifs at h
  have := Option.some.inj h
  rw [← this]
  exact ⟨rfl, rfl⟩

theorem avalanche_quality_eq_some {α : Type} [LinearOrderedField α] (sqrt : α → α) (P G : Nat)
    (rng : Nat → Nat) (hP : 1 ≤ P) : ∃ r, avalanche_quality sqrt P G rng = some r :=
  ⟨_, avalanche_quality_with_eq_some sqrt iterations P G rng hP⟩

/-! ## C11: the weights of the score -/

/-- C11 (counterexample): raising `zero_bits_percentage` by one unit raises the score by 5,
while raising `|mean - 32|` by one unit raises it by 10: zero-change occurrences weigh less than
the mean deviation, not more. -/
theorem score_weights_counterexample :
    score (example_result 3 32 0 1) - score (example_result 3 32 0 0) = 5 ∧
      score (example_result 3 33 0 0) - score (example_result 3 32 0 0) = 10 ∧
      ¬ (score (example_result 3 32 0 1) - score (example_result 3 32 0 0) >
          score (example_result 3 33 0 0) - score (example_result 3 32 0 0)) := by
  refine ⟨?_, ?_, ?_⟩ <;> simp [score, example_result] <;> norm_num

/-- C11 (amended): in the score the weight on `stddev` (15) is strictly greater than the weight
on `|mean - 32|` (10) and the weight on `zero_bits_percentage` (5) is strictly smaller: raising
`stddev` by `d` raises the score by `15 * d`, raising `zero_bits_percentage` by `d` raises it by
`5 * d`, and raising `|mean - 32|` by `d` raises it by `10 * d`. -/
theorem score_weights {α : Type} [LinearOrderedField α] (a : AvalancheStatistics α) (d : α) :
    score { a with stddev := a.stddev + d } = score a + 15 * d ∧
      score { a with zero_bits_percentage := a.zero_bits_percentage + d } = score a + 5 * d ∧
      (∀ b : AvalancheStatistics α, b.stddev = a.stddev ∧
        b.zero_bits_percentage = a.zero_bits_percentage ∧ |b.mean - 32| = |a.mean - 32| + d →
        score b = score a + 10 * d) ∧
      (10 : α) < 15 ∧ (5 : α) < 10 := by
  refine ⟨?_, ?_, ?_, by norm_num, by norm_num⟩
  · simp only [score]; ring
  · simp only [score]; ring
  · rintro b ⟨h1, h2, h3⟩
    simp only [score]
    rw [h1, h2, h3]; ring

/-! ## C12: the rendered histogram -/

/-- C12: for every histogram of occurrence counts (no count negative) and every trial count of
at least 500, `generate_histogram_string` returns the report with one line per entry, in the
order of the entries (ascending keys), each line being the key right-aligned to width 2, the
text `" bits: "`, `count / (trial_count / 500)` markers `#` (followed by one blank when there is
a marker) and the raw count in parentheses; for 10,000,000 trials and the count 10,000 the line
has no marker and still shows `(10000)`. -/
theorem generate_histogram_string_report (h : Histogram) (trial_count : Nat)
    (ht : 500 ≤ trial_count) (hc : ∀ e ∈ h, 0 ≤ e.2) :
    generate_histogram_string h trial_count = some (histogram_report h trial_count) ∧
      (∀ key : Int, ∀ count : Nat, histogram_report [(key, (count : Int))] trial_count =
        setw 2 (toString key) ++ " bits: " ++
          String.mk (List.replicate (count / (trial_count / 500)) '#') ++
          (if 0 < count / (trial_count / 500) then " " else "") ++
          "(" ++ toString count ++ ")\n") ∧
      (∀ key : Int, generate_histogram_string [(key, 10000)] 10000000 =
        some (setw 2 (toString key) ++ " bits: (10000)\n")) := by
  refine ⟨?_, ?_, ?_⟩
  · unfold generate_histogram_string
    have hne : ¬ (Int.tdiv (trial_count : Int) 500 = 0 ∧ h ≠ []) := by
      rintro ⟨h0, -⟩
      rw [Int.tdiv_eq_ediv (Int.natCast_nonneg _) (by norm_num)] at h0
      omega
    rw [if_neg hne, foldl_append_entry trial_count h hc, String.empty_append]
  · intro key count
    show histogram_line key ((count : Int)).toNat trial_count ++ "" = _
    rw [String.append_empty, Int.toNat_ofNat]
    rfl
  · intro key
    have h1 := foldl_append_entry 10000000 [(key, 10000)] (by simp) ""
    unfold generate_histogram_string
    rw [if_neg (fun hh => absurd hh.1 (by decide))]
    have h2 : ((10000000 : Nat) : Int) = 10000000 := by norm_num
    rw [h2] at h1
    rw [h1, String.empty_append]
    show some (histogram_line key 10000 10000000 ++ "") = _
    rw [String.append_empty]
    unfold histogram_line
    have h3 : 10000 / (10000000 / 500) = 0 := by norm_num
    rw [h3]
    simp only [lt_self_iff_false, if_false, List.replicate_zero, String.append_assoc]
    rfl

/-- Witness of `generate_histogram_string_report`: two entries and 10,000,000 trials; the
report is `" 3 bits: (10000)"` and `" 7 bits: ## (40000)"`, one line each. -/
theorem generate_histogram_string_report_witness :
    500 ≤ 10000000 ∧ (∀ e ∈ ([(3, 10000), (7, 40000)] : Histogram), 0 ≤ e.2) ∧
      generate_histogram_string [(3, 10000), (7, 40000)] 10000000 =
        some " 3 bits: (10000)\n 7 bits: ## (40000)\n" ∧
      (generate_histogram_string [(3, 10000), (7, 40000)] (10000000 : Nat) =
        some (histogram_report [(3, 10000), (7, 40000)] 10000000) ∧
      (∀ key : Int, ∀ count : Nat, histogram_report [(key, (count : Int))] 10000000 =
        setw 2 (toString key) ++ " bits: " ++
          String.mk (List.replicate (count / (10000000 / 500)) '#') ++
          (if 0 < count / (10000000 / 500) then " " else "") ++
          "(" ++ toString count ++ ")\n") ∧
      (∀ key : Int, generate_histogram_string [(key, 10000)] 10000000 =
        some (setw 2 (toString key) ++ " bits: (10000)\n"))) :=
  ⟨by decide, by decide, by decide,
    generate_histogram_string_report [(3, 10000), (7, 40000)] 10000000 (by decide) (by decide)⟩

/-! ## C13: the exit codes of argument parsing -/

/-- C13 (counterexample): the argument list `-5` holds a non-positive numeric argument in the
place of `num_samples` and no `-h`, yet the argument loop does not return: `-5` starts with a
dash, is skipped, and the defaults stay in force, so the process does not end with exit
code 1. -/
theorem negative_num_samples_counterexample :
    atoi "-5" = -5 ∧ atoi "-5" ≤ 0 ∧
      parse_args ["-5"] ArgState.default = ParseOutcome.proceed ArgState.default ∧
      ∀ sort mu rngs schedule,
        main (fun x : ℚ => x) sort mu rngs schedule ["-5"] ≠ some (MainOutcome.exited 1) := by
  refine ⟨by decide, by decide, by decide, ?_⟩
  intro sort mu rngs schedule
  have hp : parse_args ["-5"] ArgState.default = ParseOutcome.proceed ArgState.default := by
    decide
  unfold main
  rw [hp]
  have hmode : ArgState.default.single_prime_mode = false := rfl
  simp only [hmode, Bool.false_eq_true, if_false]
  cases parallel_for ArgState.default.num_samples.toNat
    (exploration_task (fun x : ℚ => x) mu rngs) schedule with
  | none => simp
  | some results => simp

/-- C13 (amended): after arguments `pre` that the loop has passed without a `return` (so no
`-h` among the options read), the process ends with exit code 0 at `-h`, and with exit code 1,
before any evaluation, at a `-p` or `--p-samples` without a following value, at a `-p` whose
value reads as 0, at a `--p-samples` whose value reads as `≤ 0`, and at an argument that does
not start with a dash, read as `num_samples` while no `-p` has been seen, whose value is `≤ 0`.
An argument that starts with a dash and is none of the three options (such as `-5`), and any
argument that is none of the options once `-p` has been seen, is skipped. -/
theorem parse_args_exit_codes {α : Type} [LinearOrderedField α] (sqrt : α → α)
    (sort : (AvalancheStatistics α → AvalancheStatistics α → Bool) →
      List (AvalancheStatistics α) → List (AvalancheStatistics α))
    (mu : MathUtils) (rngs : Nat → Nat → Nat) (schedule : List Nat)
    (pre rest : List String) (value : String) (st : ArgState)
    (hpre : parse_args pre ArgState.default = ParseOutcome.proceed st) :
    main sqrt sort mu rngs schedule (pre ++ "-h" :: rest) = some (MainOutcome.exited 0) ∧
      main sqrt sort mu rngs schedule (pre ++ ["-p"]) = some (MainOutcome.exited 1) ∧
      main sqrt sort mu rngs schedule (pre ++ ["--p-samples"]) = some (MainOutcome.exited 1) ∧
      (strtoull value = 0 →
        main sqrt sort mu rngs schedule (pre ++ "-p" :: value :: rest) =
          some (MainOutcome.exited 1)) ∧
      (atoi value ≤ 0 →
        main sqrt sort mu rngs schedule (pre ++ "--p-samples" :: value :: rest) =
          some (MainOutcome.exited 1)) ∧
      (not_dash value = true ∧ st.single_prime_mode = false ∧ atoi value ≤ 0 →
        main sqrt sort mu rngs schedule (pre ++ value :: rest) =
          some (MainOutcome.exited 1)) ∧
      (value ≠ "-h" ∧ value ≠ "-p" ∧ value ≠ "--p-samples" ∧
          (not_dash value = false ∨ st.single_prime_mode = true) →
        parse_args (pre ++ value :: rest) ArgState.default = parse_args rest st) ∧
      (MainOutcome.exited 1 : MainOutcome α).evaluations = 0 := by
  have hm : ∀ args code, parse_args args st = ParseOutcome.exit code →
      main sqrt sort mu rngs schedule (pre ++ args) = some (MainOutcome.exited code) := by
    intro args code h
    apply main_of_exit
    rw [parse_args_append pre args _ st hpre, h]
  refine ⟨hm _ 0 ?_, hm _ 1 ?_, hm _ 1 ?_, fun h => hm _ 1 ?_, fun h => hm _ 1 ?_,
    fun h => hm _ 1 ?_, ?_, rfl⟩
  · rw [parse_args_cons, if_pos rfl]
  · rw [parse_args_cons, if_neg (by decide), if_pos rfl]
  · rw [parse_args_cons, if_neg (by decide), if_neg (by decide), if_pos rfl]
  · rw [parse_args_cons, if_neg (by decide), if_pos rfl]
    simp only [h, if_true]
  · rw [parse_args_cons, if_neg (by decide), if_neg (by decide), if_pos rfl]
    simp only [h, if_true]
  · obtain ⟨h1, h2, h3⟩ := h
    have hne : ∀ opt : String, opt.data.head? = some '-' → value ≠ opt := by
      intro opt hopt heq
      rw [heq] at h1
      unfold not_dash at h1
      rw [hopt] at h1
      exact absurd h1 (by decide)
    rw [parse_args_cons, if_neg (hne "-h" (by decide)), if_neg (hne "-p" (by decide)),
      if_neg (hne "--p-samples" (by decide))]
    simp only [h1, h2, h3, Bool.not_false, Bool.and_self, if_true]
  · rintro ⟨h1, h2, h3, h4⟩
    rw [parse_args_append pre _ _ st hpre, parse_args_cons, if_neg h1, if_neg h2, if_neg h3]
    have hcond : ¬ ((not_dash value && !st.single_prime_mode) = true) := by
      rcases h4 with h4 | h4 <;> simp [h4]
    rw [if_neg hcond]

/-- Witness of `parse_args_exit_codes`: no argument in front, the value `0`. -/
theorem parse_args_exit_codes_witness :
    parse_args [] ArgState.default = ParseOutcome.proceed ArgState.default ∧
      strtoull "0" = 0 ∧ atoi "0" ≤ 0 ∧ not_dash "0" = true ∧
      (main (fun x : ℚ => x) insertion_sort example_math_utils example_streams []
          ([] ++ "-h" :: ["5"]) = some (MainOutcome.exited 0) ∧
        main (fun x : ℚ => x) insertion_sort example_math_utils example_streams []
          ([] ++ ["-p"]) = some (MainOutcome.exited 1) ∧
        main (fun x : ℚ => x) insertion_sort example_math_utils example_streams []
          ([] ++ ["--p-samples"]) = some (MainOutcome.exited 1) ∧
        (strtoull "0" = 0 →
          main (fun x : ℚ => x) insertion_sort example_math_utils example_streams []
            ([] ++ "-p" :: "0" :: ["5"]) = some (MainOutcome.exited 1)) ∧
        (atoi "0" ≤ 0 →
          main (fun x : ℚ => x) insertion_sort example_math_utils example_streams []
            ([] ++ "--p-samples" :: "0" :: ["5"]) = some (MainOutcome.exited 1)) ∧
        (not_dash "0" = true ∧ ArgState.default.single_prime_mode = false ∧ atoi "0" ≤ 0 →
          main (fun x : ℚ => x) insertion_sort example_math_utils example_streams []
            ([] ++ "0" :: ["5"]) = some (MainOutcome.exited 1)) ∧
        ("0" ≠ "-h" ∧ "0" ≠ "-p" ∧ "0" ≠ "--p-samples" ∧
            (not_dash "0" = false ∨ ArgState.default.single_prime_mode = true) →
          parse_args ([] ++ "0" :: ["5"]) ArgState.default =
            parse_args ["5"] ArgState.default) ∧
        (MainOutcome.exited 1 : MainOutcome ℚ).evaluations = 0) :=
  ⟨by decide, by decide, by decide, by decide,
    parse_args_exit_codes (fun x : ℚ => x) insertion_sort example_math_utils example_streams []
      [] ["5"] "0" ArgState.default (by decide)⟩

/-! ## C14: the size of the batch -/

/-- C14: when the arguments select fixed-prime mode with the prime `P` and `N` samples, every
complete run ends with a ranked batch of exactly `N` entries, each with the field `P` equal to
the supplied prime, and the `G` fields are the generators handed to the evaluator; such a run
exists. The arguments `-p P --p-samples N` give these values, `-p P` alone gives `N = 1`, and
with no arguments every complete run evaluates exactly 10 candidates in exploration mode. -/
theorem fixed_prime_batch {α : Type} [LinearOrderedField α] (sqrt : α → α)
    (sort : (AvalancheStatistics α → AvalancheStatistics α → Bool) →
      List (AvalancheStatistics α) → List (AvalancheStatistics α))
    (mu : MathUtils) (rngs : Nat → Nat → Nat) (args : List String) (st : ArgState)
    (hsort : StdSortContract sort) (hprimes : ∀ i, 1 ≤ mu.random_large_prime i)
    (hparse : parse_args args ArgState.default = ParseOutcome.proceed st)
    (hmode : st.single_prime_mode = true) :
    (∀ schedule outcome, main sqrt sort mu rngs schedule args = some outcome →
        ∃ ranked, outcome = MainOutcome.fixed_prime ranked ∧
          ranked.length = st.p_samples.toNat ∧
          (∀ e ∈ ranked, e.P = st.prime_input) ∧
          (ranked.map (fun e => e.G)).Perm ((List.range st.p_samples.toNat).map (fun i =>
            mu.find_big_generator i (mu.factorize_source i st.prime_input) st.prime_input))) ∧
      (∃ outcome,
        main sqrt sort mu rngs (sequential_schedule st.p_samples.toNat) args = some outcome) ∧
      (∀ p n : String, strtoull p ≠ 0 ∧ 0 < atoi n →
        parse_args ["-p", p, "--p-samples", n] ArgState.default =
          ParseOutcome.proceed { num_samples := 10, single_prime_mode := true,
                                 prime_input := strtoull p, p_samples := atoi n }) ∧
      (∀ p : String, strtoull p ≠ 0 →
        parse_args ["-p", p] ArgState.default =
          ParseOutcome.proceed { num_samples := 10, single_prime_mode := true,
                                 prime_input := strtoull p, p_samples := 1 }) ∧
      (∀ schedule outcome, main sqrt sort mu rngs schedule [] = some outcome →
        ∃ ranked, outcome = MainOutcome.exploration ranked ∧ ranked.length = 10) ∧
      (∃ outcome, main sqrt sort mu rngs (sequential_schedule 10) [] = some outcome) := by
  have hprime : st.prime_input ≠ 0 :=
    parse_args_prime_ne_zero args ArgState.default st (fun h => by cases h) hparse hmode
  have htask : ∀ i, fixed_prime_task sqrt mu rngs st.prime_input i =
      some (avalanche_statistics sqrt iterations st.prime_input
        (mu.find_big_generator i (mu.factorize_source i st.prime_input) st.prime_input)
        (avalanche_loop st.prime_input
          (mu.find_big_generator i (mu.factorize_source i st.prime_input) st.prime_input)
          (rngs i) iterations)) := by
    intro i
    exact avalanche_quality_with_eq_some sqrt iterations _ _ _ (by omega)
  have hexp : ∀ i, ∃ x, exploration_task sqrt mu rngs i = some x := by
    intro i
    exact avalanche_quality_eq_some sqrt _ _ _ (hprimes i)
  refine ⟨?_, ?_, ?_, ?_, ?_, ?_⟩
  · intro schedule outcome hmain
    unfold main at hmain
    rw [hparse] at hmain
    simp only [hmode, if_true] at hmain
    cases hpf : parallel_for st.p_samples.toNat (fixed_prime_task sqrt mu rngs st.prime_input)
        schedule with
    | none => rw [hpf] at hmain; cases hmain
    | some results =>
      rw [hpf] at hmain
      have hout : MainOutcome.fixed_prime (rank_results sort results) = outcome :=
        Option.some.inj hmain
      obtain ⟨hperm, hlen⟩ := parallel_for_perm _ _ _ _ hpf
      have hrank : (rank_results sort results).Perm results :=
        (hsort ranking_function ranking_function_swo results).1
      have hfm : (List.range st.p_samples.toNat).filterMap
          (fixed_prime_task sqrt mu rngs st.prime_input) =
          (List.range st.p_samples.toNat).map (fun i =>
            avalanche_statistics sqrt iterations st.prime_input
              (mu.find_big_generator i (mu.factorize_source i st.prime_input) st.prime_input)
              (avalanche_loop st.prime_input
                (mu.find_big_generator i (mu.factorize_source i st.prime_input) st.prime_input)
                (rngs i) iterations)) := by
        rw [← List.filterMap_eq_map]
        congr 1
        funext i
        exact htask i
      rw [hfm] at hperm
      have hall := hrank.trans hperm
      refine ⟨rank_results sort results, hout.symm, ?_, ?_, ?_⟩
      · rw [hrank.length_eq, hlen]
      · intro e he
        obtain ⟨i, -, hi⟩ := List.mem_map.mp (hall.subset he)
        rw [← hi]; rfl
      · have := hall.map (fun e : AvalancheStatistics α => e.G)
        rw [List.map_map] at this
        exact this
  · obtain ⟨results, hres⟩ := parallel_for_sequential st.p_samples.toNat
      (fixed_prime_task sqrt mu rngs st.prime_input) (fun i _ => ⟨_, htask i⟩)
    refine ⟨MainOutcome.fixed_prime (rank_results sort results), ?_⟩
    unfold main
    rw [hparse]
    simp only [hmode, if_true]
    rw [hres]; rfl
  · rintro p n ⟨hp, hn⟩
    rw [parse_args_cons, if_neg (by decide), if_pos rfl]
    simp only [hp, if_false]
    rw [parse_args_cons, if_neg (by decide), if_neg (by decide), if_pos rfl]
    simp only [not_le.mpr hn, if_false]
    rfl
  · intro p hp
    rw [parse_args_cons, if_neg (by decide), if_pos rfl]
    simp only [hp, if_false]
    rfl
  · intro schedule outcome hmain
    have hp : parse_args [] ArgState.default = ParseOutcome.proceed ArgState.default := rfl
    have hm : ArgState.default.single_prime_mode = false := rfl
    unfold main at hmain
    rw [hp] at hmain
    simp only [hm, Bool.false_eq_true, if_false] at hmain
    cases hpf : parallel_for ArgState.default.num_samples.toNat
        (exploration_task sqrt mu rngs) schedule with
    | none => rw [hpf] at hmain; cases hmain
    | some results =>
      rw [hpf] at hmain
      have hout : MainOutcome.exploration (rank_results sort results) = outcome :=
        Option.some.inj hmain
      obtain ⟨-, hlen⟩ := parallel_for_perm _ _ _ _ hpf
      have hrank : (rank_results sort results).Perm results :=
        (hsort ranking_function ranking_function_swo results).1
      refine ⟨rank_results sort results, hout.symm, ?_⟩
      rw [hrank.length_eq, hlen]
      rfl
  · obtain ⟨results, hres⟩ := parallel_for_sequential 10
      (exploration_task sqrt mu rngs) (fun i _ => hexp i)
    refine ⟨MainOutcome.exploration (rank_results sort results), ?_⟩
    have hp : parse_args [] ArgState.default = ParseOutcome.proceed ArgState.default := rfl
    have hm : ArgState.default.single_prime_mode = false := rfl
    have hten : ArgState.default.num_samples.toNat = 10 := rfl
    unfold main
    rw [hp]
    simp only [hm, Bool.false_eq_true, if_false, hten]
    rw [hres]; rfl

/-- Witness of `fixed_prime_batch`: the arguments `-p 1000000007 --p-samples 5`, insertion
sort, and collaborators that hand the generator `5 + i` to iteration `i`. -/
theorem fixed_prime_batch_witness :
    StdSortContract
        (insertion_sort : (AvalancheStatistics ℚ → AvalancheStatistics ℚ → Bool) → _ → _) ∧
      (∀ i, 1 ≤ example_math_utils.random_large_prime i) ∧
      parse_args example_fixed_args ArgState.default =
        ParseOutcome.proceed example_fixed_state ∧
      example_fixed_state.single_prime_mode = true ∧
      example_fixed_state.p_samples.toNat = 5 ∧
      ((∀ schedule outcome,
          main (fun x : ℚ => x) insertion_sort example_math_utils example_streams schedule
            example_fixed_args = some outcome →
          ∃ ranked, outcome = MainOutcome.fixed_prime ranked ∧
            ranked.length = example_fixed_state.p_samples.toNat ∧
            (∀ e ∈ ranked, e.P = example_fixed_state.prime_input) ∧
            (ranked.map (fun e => e.G)).Perm
              ((List.range example_fixed_state.p_samples.toNat).map (fun i =>
                example_math_utils.find_big_generator i
                  (example_math_utils.factorize_source i example_fixed_state.prime_input)
                  example_fixed_state.prime_input))) ∧
        (∃ outcome,
          main (fun x : ℚ => x) insertion_sort example_math_utils example_streams
            (sequential_schedule example_fixed_state.p_samples.toNat) example_fixed_args =
              some outcome) ∧
        (∀ p n : String, strtoull p ≠ 0 ∧ 0 < atoi n →
          parse_args ["-p", p, "--p-samples", n] ArgState.default =
            ParseOutcome.proceed { num_samples := 10, single_prime_mode := true,
                                   prime_input := strtoull p, p_samples := atoi n }) ∧
        (∀ p : String, strtoull p ≠ 0 →
          parse_args ["-p", p] ArgState.default =
            ParseOutcome.proceed { num_samples := 10, single_prime_mode := true,
                                   prime_input := strtoull p, p_samples := 1 }) ∧
        (∀ schedule outcome,
          main (fun x : ℚ => x) insertion_sort example_math_utils example_streams schedule
            [] = some outcome →
          ∃ ranked, outcome = MainOutcome.exploration ranked ∧ ranked.length = 10) ∧
        (∃ outcome,
          main (fun x : ℚ => x) insertion_sort example_math_utils example_streams
            (sequential_schedule 10) [] = some outcome)) :=
  ⟨insertion_sort_contract, fun _ => (by decide : (1 : Nat) ≤ 1000000007), by decide, rfl, by decide,
    fixed_prime_batch (fun x : ℚ => x) insertion_sort example_math_utils example_streams
      example_fixed_args example_fixed_state insertion_sort_contract (fun _ => (by decide : (1 : Nat) ≤ 1000000007))
      (by decide) rfl⟩

/-! ## C15: the candidate with `G = 1` -/

/-- C15 (counterexample): with `G = 1` and `P = 1000000007` no draw of the state and no raw
output selecting the flipped bit give two equal mapped values, and no trial of any stream has
`bitsChanged = 0`: a zero-change trial does not occur. -/
theorem identity_generator_counterexample :
    (¬ ∃ u r, mix 1000000007 1 (sample_state u) =
        mix 1000000007 1 (perturb (sample_state u) r)) ∧
      (¬ ∃ rng i, bitsChanged 1000000007 1 rng i = 0) := by
  constructor
  · rintro ⟨u, r, h⟩
    exact mix_one_ne 1000000007 (sample_state u) r (by norm_num) (by norm_num)
      (sample_state_lt u) h
  · rintro ⟨rng, i, h⟩
    have := bitsChanged_one_pos 1000000007 rng i (by norm_num) (by norm_num)
    omega

/-- C15 (amended): for a candidate with `G = 1` and an odd modulus `P > 1` (such as
`1000000007`) a 64-bit state and its twin are never mapped to equal values, every trial has
`bitsChanged ≥ 1`, and the evaluation reports no zero-change trial: the count at key 0, the
zero-change counter and `zero_bits_percentage` are 0. -/
theorem identity_generator_no_zero_change {α : Type} [LinearOrderedField α] (sqrt : α → α)
    (P : Nat) (rng : Nat → Nat) (n : Nat) (hP : 1 < P) (hodd : P % 2 = 1)
    (hn : n < 2 ^ 31 - 1) :
    (∀ state r, state < 2 ^ 64 → mix P 1 state ≠ mix P 1 (perturb state r)) ∧
      (∀ i, 1 ≤ bitsChanged P 1 rng i) ∧
      ∃ r, avalanche_quality_with sqrt n P 1 rng = some r ∧
        histogram_count r.histogram 0 = 0 ∧
        (avalanche_loop P 1 rng n).zero_bits_count = 0 ∧ r.zero_bits_percentage = 0 := by
  have hpos : ∀ i, 1 ≤ bitsChanged P 1 rng i := fun i => bitsChanged_one_pos P rng i hP hodd
  refine ⟨fun state r hs => mix_one_ne P state r hP hodd hs, hpos, ?_⟩
  obtain ⟨-, -, hkeys⟩ := avalanche_loop_histogram P 1 rng n (by omega)
  have hz := avalanche_loop_zero_count P 1 rng n (by omega)
  have hc : histogram_count (avalanche_loop P 1 rng n).histogram 0 = 0 := by
    apply histogram_count_eq_zero_of_not_mem
    intro hmem
    obtain ⟨i, -, hi⟩ := (hkeys 0).mp hmem
    have := hpos i
    omega
  refine ⟨_, avalanche_quality_with_eq_some sqrt n P 1 rng (by omega), hc, by rw [hz, hc], ?_⟩
  show ((avalanche_loop P 1 rng n).zero_bits_count : α) / (n : α) * 100 = 0
  rw [hz, hc]; simp

/-- Witness of `identity_generator_no_zero_change`: `P = 1000000007`, 20 trials. -/
theorem identity_generator_no_zero_change_witness :
    1 < 1000000007 ∧ 1000000007 % 2 = 1 ∧ 20 < 2 ^ 31 - 1 ∧
      ((∀ state r, state < 2 ^ 64 →
          mix 1000000007 1 state ≠ mix 1000000007 1 (perturb state r)) ∧
        (∀ i, 1 ≤ bitsChanged 1000000007 1 (fun i => i * 7919 + 13) i) ∧
        ∃ r, avalanche_quality_with (fun x : ℚ => x) 20 1000000007 1
            (fun i => i * 7919 + 13) = some r ∧
          histogram_count r.histogram 0 = 0 ∧
          (avalanche_loop 1000000007 1 (fun i => i * 7919 + 13) 20).zero_bits_count = 0 ∧
          r.zero_bits_percentage = 0) :=
  ⟨by decide, by decide, by decide,
    identity_generator_no_zero_change (fun x : ℚ => x) 1000000007 (fun i => i * 7919 + 13) 20
      (by decide) (by decide) (by decide)⟩

/-! ## C16: the candidate `(1000000007, 5)` with 10,000 trials -/

/-- C16 (counterexample): for `P = 1000000007`, `G = 5` and 10,000 trials, the stream whose
draws are all 0 (state `2^63`, bit index 0) gives `bitsChanged = 3` in every trial, so the
reported mean is 3, outside `[27, 37]`. -/
theorem mean_near_32_counterexample :
    bitsChanged 1000000007 5 (fun _ => 0) 0 = 3 ∧
      ∃ r, avalanche_quality_with (fun x : ℚ => x) 10000 1000000007 5 (fun _ => 0) = some r ∧
        r.mean = 3 ∧ ¬ (27 ≤ r.mean ∧ r.mean ≤ 37) := by
  have hk : ∀ i, bitsChanged 1000000007 5 (fun _ => 0) i = 3 := by
    intro i
    show bitsChanged 1000000007 5 (fun _ => 0) 0 = 3
    decide
  have hsum : (avalanche_loop 1000000007 5 (fun _ => 0) 10000).sumBitChanges = 3 * (10000 : Nat) := by
    rw [avalanche_loop_eq_exact _ _ _ _ (by norm_num)]
    exact avalanche_loop_exact_sum_const _ _ _ 3 hk 10000
  have hmean : (avalanche_statistics (fun x : ℚ => x) 10000 1000000007 5
      (avalanche_loop 1000000007 5 (fun _ => 0) 10000)).mean = 3 := by
    show ((avalanche_loop 1000000007 5 (fun _ => 0) 10000).sumBitChanges : ℚ) /
      ((10000 : Nat) : ℚ) = 3
    rw [hsum]; norm_num
  refine ⟨hk 0, _, avalanche_quality_with_eq_some _ _ _ _ _ (by norm_num), hmean, ?_⟩
  rw [hmean]; norm_num

/-- C16 (amended): for `P = 1000000007`, `G = 5` and 10,000 trials, the evaluator returns for
every stream a mean in `[0, 30]`: both mapped values are below `P < 2^30`, so a trial changes at
most 30 bits and the mean stays at least 2 below 32. -/
theorem mean_at_most_30 {α : Type} [LinearOrderedField α] (sqrt : α → α) (rng : Nat → Nat) :
    (∀ i, 0 ≤ bitsChanged 1000000007 5 rng i ∧ bitsChanged 1000000007 5 rng i ≤ 30) ∧
      ∃ r, avalanche_quality_with sqrt 10000 1000000007 5 rng = some r ∧
        0 ≤ r.mean ∧ r.mean ≤ 30 ∧ 2 ≤ |r.mean - 32| := by
  have hbits : ∀ i, 0 ≤ bitsChanged 1000000007 5 rng i ∧ bitsChanged 1000000007 5 rng i ≤ 30 := by
    intro i
    have h := bitsChanged_le_size 1000000007 5 rng i (by norm_num)
    rw [size_example] at h
    exact ⟨(bitsChanged_range _ _ _ i).1, by exact_mod_cast h⟩
  refine ⟨hbits, _, avalanche_quality_with_eq_some sqrt 10000 1000000007 5 rng (by norm_num), ?_⟩
  obtain ⟨hwf, htot, hkeys⟩ := avalanche_loop_histogram 1000000007 5 rng 10000 (by norm_num)
  have hsum := avalanche_loop_sum 1000000007 5 rng 10000 (by norm_num)
  have hkey : ∀ e ∈ (avalanche_loop 1000000007 5 rng 10000).histogram, e.1 ≤ 30 := by
    intro e he
    obtain ⟨i, -, hi⟩ := (hkeys e.1).mp (List.mem_map_of_mem _ he)
    rw [← hi]; exact (hbits i).2
  have hw := histogram_weighted_le _ 30 (fun e he => ⟨hkey e he, le_of_lt (hwf.2 e he).2⟩)
  have hw0 := (histogram_weighted_bounds _ hwf.2).1
  rw [htot, ← hsum] at hw
  rw [← hsum] at hw0
  have h0 : (0 : α) ≤ ((avalanche_loop 1000000007 5 rng 10000).sumBitChanges : α) := by
    exact_mod_cast hw0
  have h1 : ((avalanche_loop 1000000007 5 rng 10000).sumBitChanges : α) ≤
      30 * ((10000 : Nat) : α) := by exact_mod_cast hw
  have hnα : (0 : α) < ((10000 : Nat) : α) := by norm_num
  have hm0 : (0 : α) ≤ ((avalanche_loop 1000000007 5 rng 10000).sumBitChanges : α) /
      ((10000 : Nat) : α) := div_nonneg h0 (le_of_lt hnα)
  have hm1 : ((avalanche_loop 1000000007 5 rng 10000).sumBitChanges : α) /
      ((10000 : Nat) : α) ≤ 30 := (div_le_iff₀ hnα).mpr h1
  refine ⟨hm0, hm1, ?_⟩
  show 2 ≤ |((avalanche_loop 1000000007 5 rng 10000).sumBitChanges : α) /
      ((10000 : Nat) : α) - 32|
  rw [abs_of_nonpos (by linarith)]
  linarith

/-! ## C17: the parallel collection -/

/-- C17: in every state that a parallel loop of `n` iterations reaches, at most one iteration
is inside the critical block, and the shared vector holds the result of every finished
iteration exactly once and nothing else. An iteration evaluates outside the block without
touching the vector, enters the block only while it is free, and its one step inside the block
is the append, after which it has left. The vector is handed on to the ranking only when all
`n` iterations have finished, and it is then a rearrangement of the `n` results: none lost,
none duplicated, exactly `n` entries, also after a sort that rearranges it. -/
theorem parallel_loop_collects {X : Type} (n : Nat) (task : Nat → Option X)
    (schedule : List Nat) (s : RegionState X)
    (hrun : region_run n task schedule (RegionState.init X) = some s) :
    (∀ i j, i < n → j < n → s.phase i = Phase.inside → s.phase j = Phase.inside → i = j) ∧
      (∃ done : List Nat, s.results.map some = done.map task ∧
        ∀ i, done.count i = if i < n ∧ s.phase i = Phase.finished then 1 else 0) ∧
      (∀ i s', region_step n task s i = some s' →
        (s.phase i = Phase.pending → s'.phase i = Phase.waiting ∧ s'.results = s.results) ∧
        (s.phase i = Phase.waiting →
          critical_free n s = true ∧ s'.phase i = Phase.inside ∧ s'.results = s.results) ∧
        (s.phase i = Phase.inside →
          s'.phase i = Phase.finished ∧ ∃ x, task i = some x ∧ s'.results = s.results ++ [x])) ∧
      (∀ results, parallel_for n task schedule = some results →
        all_finished n s = true ∧ results = s.results ∧
        results.Perm ((List.range n).filterMap task) ∧ results.length = n ∧
        ∀ sort : List X → List X, (∀ l, (sort l).Perm l) → (sort results).length = n) := by
  obtain ⟨hmx, hdone⟩ := region_inv_run n task schedule _ s (region_inv_init n task) hrun
  refine ⟨hmx, hdone, ?_, ?_⟩
  · intro i s' hstep
    obtain ⟨-, hcase⟩ := region_step_cases n task s s' i hstep
    rcases hcase with ⟨hph, -, rfl⟩ | ⟨hph, hfree, rfl⟩ | ⟨hph, x, hx, rfl⟩
    · refine ⟨fun _ => ⟨by simp, rfl⟩, fun h => ?_, fun h => ?_⟩
      · rw [hph] at h; cases h
      · rw [hph] at h; cases h
    · refine ⟨fun h => ?_, fun _ => ⟨hfree, by simp, rfl⟩, fun h => ?_⟩
      · rw [hph] at h; cases h
      · rw [hph] at h; cases h
    · refine ⟨fun h => ?_, fun h => ?_, fun _ => ⟨by simp, x, hx, rfl⟩⟩
      · rw [hph] at h; cases h
      · rw [hph] at h; cases h
  · intro results hpf
    obtain ⟨hperm, hlen⟩ := parallel_for_perm n task schedule results hpf
    unfold parallel_for at hpf
    rw [hrun] at hpf
    by_cases hfin : all_finished n s = true
    · simp only [hfin, if_true] at hpf
      refine ⟨hfin, (Option.some.inj hpf).symm, hperm, hlen, ?_⟩
      intro sort hsort
      rw [(hsort results).length_eq, hlen]
    · simp only [hfin] at hpf
      cases hpf

/-- Witness of `parallel_loop_collects`: three iterations with the results 0, 10 and 20, under
a schedule in which iteration 2 appends first, then iteration 1, then iteration 0. -/
theorem parallel_loop_collects_witness :
    parallel_for 3 (fun i => some (i * 10)) [0, 1, 2, 2, 2, 1, 1, 0, 0] = some [20, 10, 0] ∧
      ∃ s, region_run 3 (fun i => some (i * 10)) [0, 1, 2, 2, 2, 1, 1, 0, 0]
          (RegionState.init Nat) = some s ∧
        ((∀ i j, i < 3 → j < 3 → s.phase i = Phase.inside → s.phase j = Phase.inside → i = j) ∧
        (∃ done : List Nat, s.results.map some = done.map (fun i => some (i * 10)) ∧
          ∀ i, done.count i = if i < 3 ∧ s.phase i = Phase.finished then 1 else 0) ∧
        (∀ i s', region_step 3 (fun i => some (i * 10)) s i = some s' →
          (s.phase i = Phase.pending → s'.phase i = Phase.waiting ∧ s'.results = s.results) ∧
          (s.phase i = Phase.waiting →
            critical_free 3 s = true ∧ s'.phase i = Phase.inside ∧ s'.results = s.results) ∧
          (s.phase i = Phase.inside →
            s'.phase i = Phase.finished ∧
              ∃ x, (fun i => some (i * 10)) i = some x ∧ s'.results = s.results ++ [x])) ∧
        (∀ results,
          parallel_for 3 (fun i => some (i * 10)) [0, 1, 2, 2, 2, 1, 1, 0, 0] = some results →
          all_finished 3 s = true ∧ results = s.results ∧
          results.Perm ((List.range 3).filterMap (fun i => some (i * 10))) ∧
          results.length = 3 ∧
          ∀ sort : List Nat → List Nat, (∀ l, (sort l).Perm l) →
            (sort results).length = 3)) := by
  refine ⟨by decide, ?_⟩
  cases h : region_run 3 (fun i => some (i * 10)) [0, 1, 2, 2, 2, 1, 1, 0, 0]
      (RegionState.init Nat) with
  | none =>
    have hs : (region_run 3 (fun i => some (i * 10)) [0, 1, 2, 2, 2, 1, 1, 0, 0]
      (RegionState.init Nat)).isSome = true := by decide
    rw [h] at hs
    cases hs
  | some s =>
    exact ⟨s, rfl, parallel_loop_collects 3 (fun i => some (i * 10))
      [0, 1, 2, 2, 2, 1, 1, 0, 0] s h⟩

/-! ## C18: the zero-change counter -/

/-- C18: for every evaluation with `P ≥ 1` and a trial count `n` that the `int` loop counter can
pass, the evaluator returns a result, the zero-change counter equals the histogram's count at
key 0 (0 when the key is absent), `zero_bits_percentage` is `100 * histogram[0] / n`, and it lies
in `[0, 100]`; the same for `avalanche_quality` with its 10,000,000 trials. -/
theorem avalanche_zero_change {α : Type} [LinearOrderedField α] (sqrt : α → α)
    (P G : Nat) (rng : Nat → Nat) (n : Nat) (hP : 1 ≤ P) (hn : n < 2 ^ 31 - 1) :
    (∃ r, avalanche_quality_with sqrt n P G rng = some r ∧
        (avalanche_loop P G rng n).zero_bits_count = histogram_count r.histogram 0 ∧
        r.zero_bits_percentage = 100 * (histogram_count r.histogram 0 : α) / (n : α) ∧
        0 ≤ r.zero_bits_percentage ∧ r.zero_bits_percentage ≤ 100) ∧
      (∃ r, avalanche_quality sqrt P G rng = some r ∧
        (avalanche_loop P G rng iterations).zero_bits_count = histogram_count r.histogram 0 ∧
        r.zero_bits_percentage = 100 * (histogram_count r.histogram 0 : α) / (iterations : α) ∧
        0 ≤ r.zero_bits_percentage ∧ r.zero_bits_percentage ≤ 100) := by
  have key : ∀ m : Nat, m < 2 ^ 31 - 1 →
      ∃ r, avalanche_quality_with sqrt m P G rng = some r ∧
        (avalanche_loop P G rng m).zero_bits_count = histogram_count r.histogram 0 ∧
        r.zero_bits_percentage = 100 * (histogram_count r.histogram 0 : α) / (m : α) ∧
        0 ≤ r.zero_bits_percentage ∧ r.zero_bits_percentage ≤ 100 := by
    intro m hm
    have hz := avalanche_loop_zero_count P G rng m (by omega)
    obtain ⟨-, htot, -⟩ := avalanche_loop_histogram P G rng m (by omega)
    have hb := avalanche_loop_counts_bounded P G rng m hm
    have hcb := histogram_count_bounds (avalanche_loop P G rng m).histogram 0
      (fun e he => (hb e he).1)
    rw [htot, ← hz] at hcb
    have h0 : (0 : α) ≤ ((avalanche_loop P G rng m).zero_bits_count : α) := by
      exact_mod_cast hcb.1
    have h1 : ((avalanche_loop P G rng m).zero_bits_count : α) ≤ (m : α) := by
      exact_mod_cast hcb.2
    have hm0 : (0 : α) ≤ (m : α) := Nat.cast_nonneg m
    refine ⟨_, avalanche_quality_with_eq_some sqrt m P G rng hP, hz, ?_, ?_, ?_⟩
    · show ((avalanche_loop P G rng m).zero_bits_count : α) / (m : α) * 100 =
        100 * (histogram_count (avalanche_loop P G rng m).histogram 0 : α) / (m : α)
      rw [hz]; ring
    · show 0 ≤ ((avalanche_loop P G rng m).zero_bits_count : α) / (m : α) * 100
      exact mul_nonneg (div_nonneg h0 hm0) (by norm_num)
    · show ((avalanche_loop P G rng m).zero_bits_count : α) / (m : α) * 100 ≤ 100
      have hle : ((avalanche_loop P G rng m).zero_bits_count : α) / (m : α) ≤ 1 := by
        rcases eq_or_lt_of_le hm0 with h | h
        · rw [← h, div_zero]; exact zero_le_one
        · exact (div_le_one h).mpr h1
      linarith
  exact ⟨key n hn, key iterations (by norm_num [iterations])⟩

/-- Witness of `avalanche_zero_change`: `P = 1000000007`, `G = 5`, 20 trials. -/
theorem avalanche_zero_change_witness :
    1 ≤ 1000000007 ∧ 20 < 2 ^ 31 - 1 ∧
      ((∃ r, avalanche_quality_with (fun x : ℚ => x) 20 1000000007 5
            (fun i => i * 7919 + 13) = some r ∧
          (avalanche_loop 1000000007 5 (fun i => i * 7919 + 13) 20).zero_bits_count =
            histogram_count r.histogram 0 ∧
          r.zero_bits_percentage = 100 * (histogram_count r.histogram 0 : ℚ) / ((20 : Nat) : ℚ) ∧
          0 ≤ r.zero_bits_percentage ∧ r.zero_bits_percentage ≤ 100) ∧
        (∃ r, avalanche_quality (fun x : ℚ => x) 1000000007 5 (fun i => i * 7919 + 13) = some r ∧
          (avalanche_loop 1000000007 5 (fun i => i * 7919 + 13) iterations).zero_bits_count =
            histogram_count r.histogram 0 ∧
          r.zero_bits_percentage =
            100 * (histogram_count r.histogram 0 : ℚ) / (iterations : ℚ) ∧
          0 ≤ r.zero_bits_percentage ∧ r.zero_bits_percentage ≤ 100)) :=
  ⟨by decide, by decide,
    avalanche_zero_change (fun x : ℚ => x) 1000000007 5 (fun i => i * 7919 + 13) 20
      (by decide) (by decide)⟩

/-! ## C19: the bit length of the modulus bounds the change count -/

/-- C19: for every modulus `P ≥ 1`, every `G`, every state and every raw output that selects
the flipped bit, both mapped values are below `P` and the change count is at most the bit length
of `P - 1`; hence, for a trial count that keeps the running sum in range, every key of the
returned histogram and the reported mean are at most that bit length. The bit length of
`1000000007 - 1` is 30, and for `P = 1` every trial has `bitsChanged = 0`. -/
theorem bitsChanged_le_bit_length {α : Type} [LinearOrderedField α] (sqrt : α → α)
    (P G : Nat) (rng : Nat → Nat) (n : Nat) (hP : 1 ≤ P) (hn : 64 * n < 2 ^ 31) :
    (∀ state r, mix P G state < P ∧ mix P G (perturb state r) < P ∧
        hamming_distance (mix P G state) (mix P G (perturb state r)) ≤ (Nat.size (P - 1) : Int)) ∧
      (∀ i, bitsChanged P G rng i ≤ (Nat.size (P - 1) : Int)) ∧
      (∃ r, avalanche_quality_with sqrt n P G rng = some r ∧
        (∀ e ∈ r.histogram, e.1 ≤ (Nat.size (P - 1) : Int)) ∧
        r.mean ≤ (Nat.size (P - 1) : α)) ∧
      Nat.size (1000000007 - 1) = 30 ∧
      (∀ i, bitsChanged 1 G rng i = 0) := by
  have hbits : ∀ i, bitsChanged P G rng i ≤ (Nat.size (P - 1) : Int) :=
    fun i => bitsChanged_le_size P G rng i hP
  refine ⟨?_, hbits, ?_, size_example, ?_⟩
  · intro state r
    exact ⟨mix_lt P G _ hP, mix_lt P G _ hP,
      hamming_distance_le_size P _ _ (mix_lt P G _ hP) (mix_lt P G _ hP)⟩
  · obtain ⟨hwf, htot, hkeys⟩ := avalanche_loop_histogram P G rng n (by omega)
    have hsum := avalanche_loop_sum P G rng n hn
    have hkey : ∀ e ∈ (avalanche_loop P G rng n).histogram, e.1 ≤ (Nat.size (P - 1) : Int) := by
      intro e he
      obtain ⟨i, -, hi⟩ := (hkeys e.1).mp (List.mem_map_of_mem _ he)
      rw [← hi]; exact hbits i
    refine ⟨_, avalanche_quality_with_eq_some sqrt n P G rng hP, hkey, ?_⟩
    have hw := histogram_weighted_le (avalanche_loop P G rng n).histogram (Nat.size (P - 1))
      (fun e he => ⟨hkey e he, le_of_lt (hwf.2 e he).2⟩)
    rw [htot, ← hsum] at hw
    have hwα : ((avalanche_loop P G rng n).sumBitChanges : α) ≤
        (Nat.size (P - 1) : α) * (n : α) := by exact_mod_cast hw
    show ((avalanche_loop P G rng n).sumBitChanges : α) / (n : α) ≤ _
    rcases Nat.eq_zero_or_pos n with h0 | hpos
    · subst h0; simp
    · have hnα : (0 : α) < (n : α) := by exact_mod_cast hpos
      exact (div_le_iff₀ hnα).mpr hwα
  · intro i
    have h := bitsChanged_le_size 1 G rng i (le_refl 1)
    have h0 := (bitsChanged_range 1 G rng i).1
    have hs : Nat.size (1 - 1) = 0 := by simp
    rw [hs] at h
    have : bitsChanged 1 G rng i ≤ 0 := by exact_mod_cast h
    omega

/-- Witness of `bitsChanged_le_bit_length`: `P = 1000000007`, `G = 5`, 20 trials. -/
theorem bitsChanged_le_bit_length_witness :
    1 ≤ 1000000007 ∧ 64 * 20 < 2 ^ 31 ∧
      ((∀ state r, mix 1000000007 5 state < 1000000007 ∧
          mix 1000000007 5 (perturb state r) < 1000000007 ∧
          hamming_distance (mix 1000000007 5 state) (mix 1000000007 5 (perturb state r)) ≤
            (Nat.size (1000000007 - 1) : Int)) ∧
        (∀ i, bitsChanged 1000000007 5 (fun i => i * 7919 + 13) i ≤
          (Nat.size (1000000007 - 1) : Int)) ∧
        (∃ r, avalanche_quality_with (fun x : ℚ => x) 20 1000000007 5
            (fun i => i * 7919 + 13) = some r ∧
          (∀ e ∈ r.histogram, e.1 ≤ (Nat.size (1000000007 - 1) : Int)) ∧
          r.mean ≤ (Nat.size (1000000007 - 1) : ℚ)) ∧
        Nat.size (1000000007 - 1) = 30 ∧
        (∀ i, bitsChanged 1 5 (fun i => i * 7919 + 13) i = 0)) :=
  ⟨by decide, by decide,
    bitsChanged_le_bit_length (fun x : ℚ => x) 1000000007 5 (fun i => i * 7919 + 13) 20
      (by decide) (by decide)⟩

/-! ## C20: no overflow with 10,000,000 trials -/

/-- C20: with the fixed trial count of 10,000,000 the `int` accumulators stay in range: the
running sum lies in `[0, 640000000]` with `640000000 < 2^31`, the zero-change counter and every
histogram count lie in `[0, 10000000]`, and the loop with 32-bit wraparound yields the same
state, hence the same statistics, as the loop in exact integer arithmetic. -/
theorem avalanche_no_overflow {α : Type} [LinearOrderedField α] (sqrt : α → α) (P G : Nat)
    (rng : Nat → Nat) :
    (0 ≤ (avalanche_loop P G rng iterations).sumBitChanges ∧
        (avalanche_loop P G rng iterations).sumBitChanges ≤ 64 * 10000000) ∧
      (64 * 10000000 : Int) = 640000000 ∧ (640000000 : Int) < 2 ^ 31 ∧
      (0 ≤ (avalanche_loop P G rng iterations).zero_bits_count ∧
        (avalanche_loop P G rng iterations).zero_bits_count ≤ 10000000) ∧
      (∀ e ∈ (avalanche_loop P G rng iterations).histogram, 0 < e.2 ∧ e.2 ≤ 10000000) ∧
      avalanche_loop P G rng iterations = avalanche_loop_exact P G rng iterations ∧
      avalanche_statistics sqrt iterations P G (avalanche_loop P G rng iterations) =
        avalanche_statistics sqrt iterations P G (avalanche_loop_exact P G rng iterations) := by
  have hit : iterations = 10000000 := rfl
  obtain ⟨hwf, htot, -⟩ := avalanche_loop_histogram P G rng iterations (by norm_num [iterations])
  have hsum := avalanche_loop_sum P G rng iterations (by norm_num [iterations])
  have hzero := avalanche_loop_zero_count P G rng iterations (by norm_num [iterations])
  have hw := histogram_weighted_bounds _ hwf.2
  have hcb := histogram_count_bounds (avalanche_loop P G rng iterations).histogram 0
    (fun e he => le_of_lt (hwf.2 e he).2)
  have heq := avalanche_loop_eq_exact P G rng iterations (by norm_num [iterations])
  rw [htot] at hw hcb
  rw [← hsum] at hw
  rw [← hzero] at hcb
  have hN : ((iterations : Nat) : Int) = 10000000 := by rw [hit]; norm_num
  rw [hN] at hw hcb
  refine ⟨⟨hw.1, hw.2⟩, by norm_num, by norm_num, hcb, ?_, heq, by rw [← heq]⟩
  intro e he
  refine ⟨(hwf.2 e he).2, ?_⟩
  have := histogram_count_le_total _ (fun x hx => le_of_lt (hwf.2 x hx).2) e he
  rw [htot, hN] at this
  exact this

end Cornice
